import Mathlib

/-!
Verification of the FastCGI protocol library core.

The Rust source is embedded shallowly: byte buffers become `List Nat`
(each entry intended to be < 256, with machine-integer casts written as
explicit `% 2 ^ w`), fallible functions return `Except`, and functions
that can panic in Rust (assert, todo, unimplemented, unreachable) return
`Option` with `none` modelling the panic.
-/

namespace FastCGI

/-! ## Record type taxonomy, src/protocol/record/types.rs -/

/-- Application record types (bytes 1 through 8),
src/protocol/record/types.rs. -/
inductive ApplicationRecordType
  | beginRequest
  | abortRequest
  | endRequest
  | params
  | stdin
  | stdout
  | stderr
  | data
deriving DecidableEq, Repr

/-- The discriminant of an application record type (repr u8). -/
def ApplicationRecordType.toU8 : ApplicationRecordType → Nat
  | .beginRequest => 1
  | .abortRequest => 2
  | .endRequest => 3
  | .params => 4
  | .stdin => 5
  | .stdout => 6
  | .stderr => 7
  | .data => 8

/-- From u8 for ApplicationRecordType: defined on bytes 1 through 8, any
other byte hits the unreachable branch (modelled as `none`). -/
def ApplicationRecordType.fromU8 : Nat → Option ApplicationRecordType
  | 1 => some .beginRequest
  | 2 => some .abortRequest
  | 3 => some .endRequest
  | 4 => some .params
  | 5 => some .stdin
  | 6 => some .stdout
  | 7 => some .stderr
  | 8 => some .data
  | _ => none

/-- Management record type wrapper, src/protocol/record/types.rs. -/
structure ManagementRecordType where
  recordType : Nat
deriving DecidableEq, Repr

/-- ManagementRecordType::new asserts that the byte is greater than 11; the
assert failure (a panic) is modelled as `none`. -/
def ManagementRecordType.new (n : Nat) : Option ManagementRecordType :=
  if 11 < n then some (ManagementRecordType.mk n) else none

/-- ManagementRecordType::new_unchecked performs no check. -/
def ManagementRecordType.newUnchecked (n : Nat) : ManagementRecordType :=
  ManagementRecordType.mk n

/-- RecordType of the rewritten protocol module,
src/protocol/record/types.rs. -/
inductive RecordType
  | application (t : ApplicationRecordType)
  | management (t : ManagementRecordType)
deriving DecidableEq, Repr

/-- From u8 for RecordType (protocol variant): bytes 1 through 8 become
application types, every other byte is sent through
ManagementRecordType::new, whose assert panics on bytes 0, 9, 10 and 11. -/
def RecordType.fromU8 (b : Nat) : Option RecordType :=
  if 1 ≤ b ∧ b ≤ 8 then
    (ApplicationRecordType.fromU8 b).map RecordType.application
  else
    (ManagementRecordType.new b).map RecordType.management

/-- From RecordType for u8 (protocol variant). -/
def RecordType.toU8 : RecordType → Nat
  | .application t => t.toU8
  | .management t => t.recordType

/-! ## Legacy record type taxonomy, src/types.rs -/

/-- Standard record types of the legacy module (bytes 1 through 11),
src/types.rs. -/
inductive Standard
  | beginRequest
  | abortRequest
  | endRequest
  | params
  | stdin
  | stdout
  | stderr
  | data
  | getValues
  | getValuesResult
  | unknownType
deriving DecidableEq, Repr

/-- The discriminant of a legacy standard record type (repr u8). -/
def Standard.toU8 : Standard → Nat
  | .beginRequest => 1
  | .abortRequest => 2
  | .endRequest => 3
  | .params => 4
  | .stdin => 5
  | .stdout => 6
  | .stderr => 7
  | .data => 8
  | .getValues => 9
  | .getValuesResult => 10
  | .unknownType => 11

/-- From u8 for Standard: the macro-generated match maps each listed
discriminant and sends every other byte to UnknownType. -/
def Standard.fromU8 : Nat → Standard
  | 1 => .beginRequest
  | 2 => .abortRequest
  | 3 => .endRequest
  | 4 => .params
  | 5 => .stdin
  | 6 => .stdout
  | 7 => .stderr
  | 8 => .data
  | 9 => .getValues
  | 10 => .getValuesResult
  | 11 => .unknownType
  | _ => .unknownType

/-- Custom record type wrapper of the legacy module, src/types.rs. -/
structure Custom where
  recordType : Nat
deriving DecidableEq, Repr

/-- Custom::new asserts that the byte is greater than 11 (panic modelled as
`none`). -/
def Custom.new (n : Nat) : Option Custom :=
  if 11 < n then some (Custom.mk n) else none

/-- Legacy RecordType, src/types.rs. -/
inductive LegacyRecordType
  | standard (t : Standard)
  | custom (t : Custom)
deriving DecidableEq, Repr

/-- From u8 for the legacy RecordType: bytes 1 through 11 become standard
types, every other byte goes through Custom::new, whose assert panics on
byte 0. -/
def LegacyRecordType.fromU8 (b : Nat) : Option LegacyRecordType :=
  if 1 ≤ b ∧ b ≤ 11 then
    some (LegacyRecordType.standard (Standard.fromU8 b))
  else
    (Custom.new b).map LegacyRecordType.custom

/-! ## Header and frame codec, src/protocol/record/header.rs and
src/protocol/transport/mod.rs -/

/-- Padding policy, src/protocol/record/header.rs.  The adaptive policy
carries a caller-supplied function of the content length (u16 to u8). -/
inductive Padding
  | automatic
  | adaptive (f : Nat → Nat)
  | static (n : Nat)

/-- Padding::pad_to_multiple_of_8: the length is widened to u32, rounded up
to a multiple of 8 with bitwise arithmetic, and the difference is cast back
to u8. -/
def Padding.padToMultipleOf8 (n : Nat) : Nat :=
  ((((n % 2 ^ 32) + 7) % 2 ^ 32 &&& 0xFFFFFFF8) - n % 2 ^ 32) % 2 ^ 8

/-- Padding::from_u8: a positive byte becomes a static padding, zero becomes
no padding. -/
def Padding.fromU8 (n : Nat) : Option Padding :=
  if 0 < n then some (Padding.static n) else none

/-- Padding::into_u8, the padding byte count for a given content length. -/
def Padding.intoU8 : Padding → Nat → Nat
  | .automatic, 0 => 0
  | .automatic, n => Padding.padToMultipleOf8 n
  | .adaptive f, n => f n % 2 ^ 8
  | .static n, _ => n % 2 ^ 8

/-- Record header, src/protocol/record/header.rs. -/
structure Header where
  id : Nat
  recordType : RecordType
  padding : Option Padding

/-- Decoded header triple, src/protocol/record/header.rs. -/
structure HeaderDecoded where
  header : Header
  contentLength : Nat
  paddingLength : Nat

/-- The FCGI_VERSION_1 constant. -/
def FCGI_VERSION_1 : Nat := 1

/-- The size of the wire header in bytes. -/
def HEADER_SIZE : Nat := 8

/-- Header::encode writes version, record type, id (big endian), content
length (big endian), padding length and a zero reserved byte. -/
def Header.encode (h : Header) (contentLength paddingLength : Nat) :
    List Nat :=
  [FCGI_VERSION_1,
   h.recordType.toU8 % 2 ^ 8,
   h.id / 2 ^ 8 % 2 ^ 8,
   h.id % 2 ^ 8,
   contentLength / 2 ^ 8 % 2 ^ 8,
   contentLength % 2 ^ 8,
   paddingLength % 2 ^ 8,
   0]

/-- Errors of the frame decoder, src/protocol/transport/mod.rs. -/
inductive DecodeCodecError
  | incompatibleVersion
  | corruptedHeader
deriving DecidableEq, Repr

/-- Header::decode: with fewer than 8 bytes nothing is consumed; a non-zero
reserved byte is a corrupted header and a version byte other than one is an
incompatible version; otherwise the eight header bytes are consumed.  The
record type byte goes through RecordType::from, which panics (`none`) on
bytes 0, 9, 10 and 11. -/
def Header.decode (src : List Nat) :
    Option (Except DecodeCodecError (Option (HeaderDecoded × List Nat))) :=
  if src.length < HEADER_SIZE then some (Except.ok none)
  else if src.getD 7 0 ≠ 0 then some (Except.error .corruptedHeader)
  else if src.getD 0 0 ≠ FCGI_VERSION_1 then
    some (Except.error .incompatibleVersion)
  else
    let contentLength := src.getD 4 0 * 2 ^ 8 + src.getD 5 0
    let paddingLength := src.getD 6 0
    match RecordType.fromU8 (src.getD 1 0) with
    | none => none
    | some rt =>
        some (Except.ok (some
          (⟨⟨src.getD 2 0 * 2 ^ 8 + src.getD 3 0, rt,
             Padding.fromU8 paddingLength⟩,
            contentLength, paddingLength⟩,
           src.drop HEADER_SIZE)))

/-- A record handed to the encoder: header plus staged body bytes,
src/protocol/record/mod.rs. -/
structure Record where
  header : Header
  body : List Nat

/-- FastCgiCodec::encode: the content length is the body length cast to u16,
the padding count comes from the padding policy, and the output is header
bytes, body bytes and that many zero padding bytes. -/
def FastCgiCodec.encode (r : Record) : List Nat :=
  let contentLength := r.body.length % 2 ^ 16
  let paddingLength :=
    match r.header.padding with
    | none => 0
    | some p => p.intoU8 contentLength
  Header.encode r.header contentLength paddingLength
    ++ r.body ++ List.replicate paddingLength 0

/-- An unparsed record as produced by the decoder,
src/protocol/transport/frame.rs. -/
structure Frame where
  id : Nat
  recordType : RecordType
  payload : List Nat

/-- Decoder state, src/protocol/transport/mod.rs. -/
inductive DecodeState
  | header
  | payload (h : Header) (contentLength : Nat)
  | padding (n : Nat)

/-- The body-extraction half of FastCgiCodec::decode: waits for the full
content, detaches it as the payload, and moves to the padding-skip state
exactly when the decoded header carries a static padding. -/
def FastCgiCodec.decodeBody (h : Header) (contentLength : Nat)
    (src : List Nat) :
    Except DecodeCodecError (Option Frame × DecodeState × List Nat) :=
  if src.length < contentLength then
    Except.ok (none, DecodeState.payload h contentLength, src)
  else
    let nextState :=
      match h.padding with
      | some (Padding.static n) => DecodeState.padding n
      | _ => DecodeState.header
    Except.ok (some ⟨h.id, h.recordType, src.take contentLength⟩,
      nextState, src.drop contentLength)

/-- The header half of FastCgiCodec::decode. -/
def FastCgiCodec.decodeFromHeader (src : List Nat) :
    Option (Except DecodeCodecError (Option Frame × DecodeState × List Nat)) :=
  match Header.decode src with
  | none => none
  | some (Except.error e) => some (Except.error e)
  | some (Except.ok none) => some (Except.ok (none, DecodeState.header, src))
  | some (Except.ok (some (hd, rest))) =>
      some (FastCgiCodec.decodeBody hd.header hd.contentLength rest)

/-- FastCgiCodec::decode: skip pending padding first, then decode a header
and a body.  The `none` result models the panic inside RecordType::from. -/
def FastCgiCodec.decode (state : DecodeState) (src : List Nat) :
    Option (Except DecodeCodecError (Option Frame × DecodeState × List Nat)) :=
  match state with
  | .padding n =>
      if src.length < n then some (Except.ok (none, DecodeState.padding n, src))
      else FastCgiCodec.decodeFromHeader (src.drop n)
  | .header => FastCgiCodec.decodeFromHeader src
  | .payload h contentLength =>
      some (FastCgiCodec.decodeBody h contentLength src)

/-! ## Stream defragmenter, src/protocol/parser/defrag.rs -/

/-- Error payload of a stream-size overflow, carrying the attempted total
size and the configured limit. -/
structure MaximumStreamSizeExceeded where
  size : Nat
  limit : Nat
deriving DecidableEq, Repr

/-- Receive-side accumulator for successive frames of one stream type. -/
structure Defrag where
  payloads : List (List Nat)
  maxTotalPayload : Nat
  currentTotalPayload : Nat
deriving DecidableEq, Repr

/-- Defrag::default, with the 64 MiB cap. -/
def Defrag.default : Defrag :=
  ⟨[], 0x4000000, 0⟩

/-- Defrag::new. -/
def Defrag.new : Defrag := Defrag.default

/-- Defrag::with_max_payload_size. -/
def Defrag.withMaxPayloadSize (d : Defrag) (n : Nat) : Defrag :=
  { d with maxTotalPayload := n }

/-- Defrag::insert_payload: fails when the new total would exceed the cap,
otherwise appends the payload and updates the running total. -/
def Defrag.insertPayload (d : Defrag) (payload : List Nat) :
    Except MaximumStreamSizeExceeded Defrag :=
  let newSize := d.currentTotalPayload + payload.length
  if d.maxTotalPayload < newSize then
    Except.error ⟨newSize, d.maxTotalPayload⟩
  else
    Except.ok ⟨d.payloads ++ [payload], d.maxTotalPayload, newSize⟩

/-- Defrag::handle_end_of_stream: nothing buffered yields `none`; otherwise
the buffered payloads are drained and concatenated (the running total is not
reset by the source). -/
def Defrag.handleEndOfStream (d : Defrag) : Option (List Nat) × Defrag :=
  if d.payloads = [] then (none, d)
  else (some d.payloads.flatten, { d with payloads := [] })

/-! ## Record bodies, src/protocol/record -/

/-- Record decode errors, src/protocol/record/mod.rs. -/
inductive DecodeError
  | corruptedFrame
  | insufficientDataInBuffer
deriving DecidableEq, Repr

/-- ByteSlice::decode with a validator (src/protocol/record/common/
byte_slice.rs); Stdout, Stderr and Stdin validate non-emptiness. -/
def ByteSlice.decode (src : List Nat) (validate : List Nat → Bool) :
    Except DecodeError (List Nat) :=
  if validate src then Except.ok src else Except.error .corruptedFrame

/-- ByteSlice::validate_non_empty. -/
def ByteSlice.validateNonEmpty (bytes : List Nat) : Bool :=
  !bytes.isEmpty

/-- Stdout::decode, src/protocol/record/standard.rs. -/
def Stdout.decode (src : List Nat) : Except DecodeError (List Nat) :=
  ByteSlice.decode src ByteSlice.validateNonEmpty

/-- Stderr::decode, src/protocol/record/standard.rs. -/
def Stderr.decode (src : List Nat) : Except DecodeError (List Nat) :=
  ByteSlice.decode src ByteSlice.validateNonEmpty

/-- Protocol status of an EndRequest record,
src/protocol/record/end_request.rs. -/
inductive ProtocolStatus
  | requestComplete
  | cantMpxConn
  | overloaded
  | unknownRole
deriving DecidableEq, Repr

/-- From u8 for ProtocolStatus: every byte above 3 maps to UnknownRole. -/
def ProtocolStatus.fromU8 : Nat → ProtocolStatus
  | 0 => .requestComplete
  | 1 => .cantMpxConn
  | 2 => .overloaded
  | _ => .unknownRole

/-- EndRequest record body, src/protocol/record/end_request.rs. -/
structure EndRequest where
  appStatus : Nat
  protocolStatus : ProtocolStatus
deriving DecidableEq, Repr

/-- A big-endian u64 read of eight bytes. -/
def u64FromBeBytes (src : List Nat) : Nat :=
  src.foldl (fun acc b => acc * 2 ^ 8 + b % 2 ^ 8) 0

/-- EndRequest::decode: the payload must be exactly eight bytes with the
last three zero (checked by shifting the whole u64 left by 40 bits); the app
status is the first big-endian u32 and the protocol status the fifth byte. -/
def EndRequest.decode (src : List Nat) : Except DecodeError EndRequest :=
  if src.length ≠ 8 then Except.error .corruptedFrame
  else if 0 < u64FromBeBytes src * 2 ^ 40 % 2 ^ 64 then
    Except.error .corruptedFrame
  else
    Except.ok ⟨(src.take 4).foldl (fun acc b => acc * 2 ^ 8 + b % 2 ^ 8) 0,
      ProtocolStatus.fromU8 (src.getD 4 0)⟩

/-- Request roles, src/protocol/record/begin_request.rs. -/
inductive Role
  | responder
  | authorizer
  | filter
deriving DecidableEq, Repr

/-- TryFrom u16 for Role: 1, 2 and 3 are the legal roles, any other value
is a corrupted frame. -/
def Role.tryFromU16 (value : Nat) : Except DecodeError Role :=
  match value with
  | 1 => Except.ok .responder
  | 2 => Except.ok .authorizer
  | 3 => Except.ok .filter
  | _ => Except.error .corruptedFrame

/-- BeginRequest record body, src/protocol/record/begin_request.rs. -/
structure BeginRequest where
  role : Role
  keepConn : Bool
deriving DecidableEq, Repr

/-- BeginRequest::decode: the payload must be exactly eight bytes; the role
is the first big-endian u16 and must be legal; the trailing five bytes must
be zero (checked by shifting the whole u64 left by 24 bits); the keep_conn
flag is set exactly when the third byte is positive. -/
def BeginRequest.decode (src : List Nat) : Except DecodeError BeginRequest :=
  if src.length ≠ 8 then Except.error .insufficientDataInBuffer
  else
    match Role.tryFromU16 (src.getD 0 0 % 2 ^ 8 * 2 ^ 8 + src.getD 1 0 % 2 ^ 8) with
    | Except.error e => Except.error e
    | Except.ok role =>
        if 0 < u64FromBeBytes src * 2 ^ 24 % 2 ^ 64 then
          Except.error .corruptedFrame
        else if 0 < src.getD 2 0 then Except.ok ⟨role, true⟩
        else Except.ok ⟨role, false⟩

/-! ## Client response parser, src/protocol/parser/response.rs -/

/-- Phase of one standard output stream. -/
inductive Inner
  | init
  | started
  | ended
deriving DecidableEq, Repr

/-- Parser state: phases of stdout and stderr, or finished. -/
inductive RState
  | std (out err : Inner)
  | finished
deriving DecidableEq, Repr

/-- Parse transitions of the response parser. -/
inductive RTransition
  | parseStdout (payload : List Nat)
  | parseStderr (payload : List Nat)
  | endOfStdout
  | endOfStderr
  | parseEndRequest (payload : List Nat)
deriving DecidableEq, Repr

/-- Parts emitted by the response parser. -/
inductive RPart
  | stdout (o : Option (List Nat))
  | stderr (o : Option (List Nat))
  | endRequest (er : EndRequest)
deriving DecidableEq, Repr

/-- Errors of the response parser. -/
inductive ParseResponseError
  | invalidState
  | unexpectedRecordType (t : RecordType)
  | maximumStreamSizeExceeded (e : MaximumStreamSizeExceeded)
  | decodeError (e : DecodeError)
  | decodeEndRequestError (e : DecodeError)
deriving DecidableEq, Repr

/-- Transition::parse classifies an application frame by record type and
payload emptiness; the assert on a zero id models as `none` (panic).  An
empty EndRequest is an InsufficientDataInBuffer decode error and any other
record type is unexpected. -/
def RTransition.parse (f : Frame) :
    Option (Except ParseResponseError RTransition) :=
  if f.id = 0 then none
  else
    some (match f.recordType, f.payload.isEmpty with
    | RecordType.application .stdout, false =>
        Except.ok (RTransition.parseStdout f.payload)
    | RecordType.application .stdout, true =>
        Except.ok RTransition.endOfStdout
    | RecordType.application .stderr, false =>
        Except.ok (RTransition.parseStderr f.payload)
    | RecordType.application .stderr, true =>
        Except.ok RTransition.endOfStderr
    | RecordType.application .endRequest, false =>
        Except.ok (RTransition.parseEndRequest f.payload)
    | RecordType.application .endRequest, true =>
        Except.error (ParseResponseError.decodeError .insufficientDataInBuffer)
    | rt, _ => Except.error (ParseResponseError.unexpectedRecordType rt))

/-- Full state of the response parser: the state machine plus one
defragmenter per interleavable stream. -/
structure RParser where
  inner : RState
  stdoutDefrag : Defrag
  stderrDefrag : Defrag
deriving DecidableEq, Repr

/-- Parser::new with the configured maximum stream payload size. -/
def RParser.new (maxTotalPayload : Nat) : RParser :=
  ⟨RState.std Inner.init Inner.init,
   Defrag.new.withMaxPayloadSize maxTotalPayload,
   Defrag.new.withMaxPayloadSize maxTotalPayload⟩

/-- Parser::parse, one step of the response state machine.  Mutations that
happen before an early error return are kept, so the updated parser is
returned alongside the result. -/
def RParser.parse (ps : RParser) (t : RTransition) :
    Except ParseResponseError (Option RPart) × RParser :=
  match ps.inner, t with
  | RState.std Inner.init err, RTransition.parseStdout payload =>
      (match ps.stdoutDefrag.insertPayload payload with
       | Except.error e =>
           (Except.error (ParseResponseError.maximumStreamSizeExceeded e), ps)
       | Except.ok d =>
           (Except.ok none,
            { ps with inner := RState.std Inner.started err,
                      stdoutDefrag := d }))
  | RState.std Inner.started err, RTransition.parseStdout payload =>
      (match ps.stdoutDefrag.insertPayload payload with
       | Except.error e =>
           (Except.error (ParseResponseError.maximumStreamSizeExceeded e), ps)
       | Except.ok d =>
           (Except.ok none,
            { ps with inner := RState.std Inner.started err,
                      stdoutDefrag := d }))
  | RState.std Inner.init err, RTransition.endOfStdout =>
      (Except.ok (some (RPart.stdout none)),
       { ps with inner := RState.std Inner.ended err })
  | RState.std Inner.started err, RTransition.endOfStdout =>
      (match ps.stdoutDefrag.handleEndOfStream with
       | (none, d) =>
           (Except.ok (some (RPart.stdout none)),
            { ps with inner := RState.std Inner.ended err, stdoutDefrag := d })
       | (some payload, d) =>
           match Stdout.decode payload with
           | Except.error e =>
               (Except.error (ParseResponseError.decodeError e),
                { ps with stdoutDefrag := d })
           | Except.ok s =>
               (Except.ok (some (RPart.stdout (some s))),
                { ps with inner := RState.std Inner.ended err,
                          stdoutDefrag := d }))
  | RState.std out Inner.init, RTransition.parseStderr payload =>
      (match ps.stderrDefrag.insertPayload payload with
       | Except.error e =>
           (Except.error (ParseResponseError.maximumStreamSizeExceeded e), ps)
       | Except.ok d =>
           (Except.ok none,
            { ps with inner := RState.std out Inner.started,
                      stderrDefrag := d }))
  | RState.std out Inner.started, RTransition.parseStderr payload =>
      (match ps.stderrDefrag.insertPayload payload with
       | Except.error e =>
           (Except.error (ParseResponseError.maximumStreamSizeExceeded e), ps)
       | Except.ok d =>
           (Except.ok none,
            { ps with inner := RState.std out Inner.started,
                      stderrDefrag := d }))
  | RState.std out Inner.init, RTransition.endOfStderr =>
      (Except.ok (some (RPart.stderr none)),
       { ps with inner := RState.std out Inner.ended })
  | RState.std out Inner.started, RTransition.endOfStderr =>
      (match ps.stderrDefrag.handleEndOfStream with
       | (none, d) =>
           (Except.ok (some (RPart.stderr none)),
            { ps with inner := RState.std out Inner.ended, stderrDefrag := d })
       | (some payload, d) =>
           match Stderr.decode payload with
           | Except.error e =>
               (Except.error (ParseResponseError.decodeError e),
                { ps with stderrDefrag := d })
           | Except.ok s =>
               (Except.ok (some (RPart.stderr (some s))),
                { ps with inner := RState.std out Inner.ended,
                          stderrDefrag := d }))
  | RState.std Inner.ended Inner.init, RTransition.parseEndRequest payload =>
      (match EndRequest.decode payload with
       | Except.error e =>
           (Except.error (ParseResponseError.decodeEndRequestError e), ps)
       | Except.ok er =>
           (Except.ok (some (RPart.endRequest er)),
            { ps with inner := RState.finished }))
  | RState.std Inner.ended Inner.ended, RTransition.parseEndRequest payload =>
      (match EndRequest.decode payload with
       | Except.error e =>
           (Except.error (ParseResponseError.decodeEndRequestError e), ps)
       | Except.ok er =>
           (Except.ok (some (RPart.endRequest er)),
            { ps with inner := RState.finished }))
  | _, _ => (Except.error ParseResponseError.invalidState, ps)

/-- Run the response parser on a transition sequence, recording one emission
slot per consumed transition.  Stops at the first error. -/
def RParser.run (ps : RParser) :
    List RTransition →
    Except ParseResponseError (RParser × List (Option RPart))
  | [] => Except.ok (ps, [])
  | t :: ts =>
      match RParser.parse ps t with
      | (Except.error e, _) => Except.error e
      | (Except.ok part, ps2) =>
          match RParser.run ps2 ts with
          | Except.error e => Except.error e
          | Except.ok (psf, log) => Except.ok (psf, part :: log)

/-! ## Theorems about record-type classification (C2) and the frame codec
round trip (C1) -/

/-- A record type value whose wire byte is representable and does not hit
the assert inside the byte-to-record-type conversions: application types,
or management types with a byte in 12 through 255. -/
def RecordType.wfByte : RecordType → Prop
  | .application _ => True
  | .management m => 11 < m.recordType ∧ m.recordType < 2 ^ 8

theorem ApplicationRecordType.toU8_lt (t : ApplicationRecordType) :
    0 < t.toU8 ∧ t.toU8 ≤ 8 := by
  cases t <;> simp [ApplicationRecordType.toU8]

theorem ApplicationRecordType.fromU8_toU8 (t : ApplicationRecordType) :
    ApplicationRecordType.fromU8 t.toU8 = some t := by
  cases t <;> rfl

theorem RecordType.fromU8_roundtrip (rt : RecordType) (h : rt.wfByte) :
    RecordType.fromU8 (rt.toU8 % 2 ^ 8) = some rt := by
  cases rt with
  | application t => cases t <;> decide
  | management m =>
      obtain ⟨h1, h2⟩ := h
      have hm : m.recordType % 2 ^ 8 = m.recordType := Nat.mod_eq_of_lt h2
      show RecordType.fromU8 (m.recordType % 2 ^ 8) =
        some (RecordType.management m)
      rw [hm]
      unfold RecordType.fromU8 ManagementRecordType.new
      rw [if_neg (by omega), if_pos h1]
      rfl

/-- Claim C2: the byte-to-record-type conversions are not total.  In the
rewritten protocol module, bytes 0, 9, 10 and 11 reach the assert inside
ManagementRecordType::new and panic, although 9, 10 and 11 are the wire
bytes of GetValues, GetValuesResult and UnknownType, which the module itself
emits; in the legacy module, byte 0 reaches the assert inside Custom::new.
Bytes 1 through 8 do classify as application record types and bytes 12 and
above as management record types. -/
theorem recordType_classification_not_total :
    RecordType.fromU8 9 = none ∧
    RecordType.fromU8 10 = none ∧
    RecordType.fromU8 11 = none ∧
    RecordType.fromU8 0 = none ∧
    LegacyRecordType.fromU8 0 = none ∧
    RecordType.fromU8 5 = some (RecordType.application .stdin) ∧
    RecordType.fromU8 12 = some (RecordType.management ⟨12⟩) ∧
    LegacyRecordType.fromU8 9 =
      some (LegacyRecordType.standard .getValues) := by
  decide

/-- The padding count computed by a policy is always below 256. -/
theorem Padding.intoU8_lt (p : Padding) (n : Nat) : p.intoU8 n < 2 ^ 8 := by
  cases p with
  | automatic =>
      cases n with
      | zero => simp [Padding.intoU8]
      | succ m =>
          simp only [Padding.intoU8, Padding.padToMultipleOf8]
          omega
  | adaptive f => simp [Padding.intoU8]; omega
  | static m => simp [Padding.intoU8]; omega

theorem FastCgiCodec.encode_eq (r : Record) :
    FastCgiCodec.encode r =
      FCGI_VERSION_1 :: r.header.recordType.toU8 % 2 ^ 8 ::
      r.header.id / 2 ^ 8 % 2 ^ 8 :: r.header.id % 2 ^ 8 ::
      r.body.length % 2 ^ 16 / 2 ^ 8 % 2 ^ 8 ::
      r.body.length % 2 ^ 16 % 2 ^ 8 ::
      (match r.header.padding with
       | none => 0
       | some p => p.intoU8 (r.body.length % 2 ^ 16)) % 2 ^ 8 ::
      0 ::
      (r.body ++ List.replicate
        (match r.header.padding with
         | none => 0
         | some p => p.intoU8 (r.body.length % 2 ^ 16)) 0) := by
  simp [FastCgiCodec.encode, Header.encode]

/-- Claim C1 (amended): for every record whose body is at most 65535 bytes
and whose record type byte does not panic the byte-to-record-type
conversion (application types, or management types with byte 12 through
255), encoding with the frame codec and decoding the produced bytes yields
a frame with the identical payload, id and record type, under every padding
policy; the padding bytes are left outside the decoded payload. -/
theorem Header.decode_cons (b1 b2 b3 b4 b5 b6 : Nat) (tail : List Nat) :
    Header.decode
      (FCGI_VERSION_1 :: b1 :: b2 :: b3 :: b4 :: b5 :: b6 :: 0 :: tail) =
      match RecordType.fromU8 b1 with
      | none => none
      | some rt =>
          some (Except.ok (some
            (⟨⟨b2 * 2 ^ 8 + b3, rt, Padding.fromU8 b6⟩,
              b4 * 2 ^ 8 + b5, b6⟩, tail))) := by
  unfold Header.decode
  rw [if_neg (by simp [HEADER_SIZE]), if_neg (by simp), if_neg (by simp)]
  rfl

theorem FastCgiCodec.decodeBody_exact (h : Header) (body pad : List Nat) :
    FastCgiCodec.decodeBody h body.length (body ++ pad) =
      Except.ok (some ⟨h.id, h.recordType, body⟩,
        (match h.padding with
         | some (Padding.static n) => DecodeState.padding n
         | _ => DecodeState.header), pad) := by
  unfold FastCgiCodec.decodeBody
  rw [if_neg (by simp)]
  simp [List.take_left, List.drop_left]

theorem frame_codec_roundtrip (r : Record)
    (hid : r.header.id < 2 ^ 16)
    (hbody : r.body.length ≤ 65535)
    (hrt : r.header.recordType.wfByte) :
    ∃ st rest,
      FastCgiCodec.decode DecodeState.header (FastCgiCodec.encode r) =
        some (Except.ok
          (some ⟨r.header.id, r.header.recordType, r.body⟩, st, rest)) := by
  have hcl : r.body.length % 2 ^ 16 = r.body.length :=
    Nat.mod_eq_of_lt (by omega)
  rw [FastCgiCodec.encode_eq]
  set pl :=
    (match r.header.padding with
     | none => 0
     | some p => p.intoU8 (r.body.length % 2 ^ 16)) with hpl
  have hpl256 : pl % 2 ^ 8 = pl := by
    rw [hpl]
    cases h : r.header.padding with
    | none => simp
    | some p => simpa using Nat.mod_eq_of_lt (Padding.intoU8_lt p _)
  rw [hpl256]
  refine ⟨(match Padding.fromU8 pl with
           | some (Padding.static n) => DecodeState.padding n
           | _ => DecodeState.header), List.replicate pl 0, ?_⟩
  show FastCgiCodec.decodeFromHeader _ = _
  unfold FastCgiCodec.decodeFromHeader
  rw [Header.decode_cons, RecordType.fromU8_roundtrip _ hrt]
  have hidrt : r.header.id / 2 ^ 8 % 2 ^ 8 * 2 ^ 8 + r.header.id % 2 ^ 8 =
      r.header.id := by omega
  have hclrt : r.body.length % 2 ^ 16 / 2 ^ 8 % 2 ^ 8 * 2 ^ 8 +
      r.body.length % 2 ^ 16 % 2 ^ 8 = r.body.length := by omega
  simp only [hidrt, hclrt]
  rw [FastCgiCodec.decodeBody_exact]

/-- Claim C1 (counterexample): a GetValues record (type byte 9) encodes, but
decoding the produced bytes panics inside the byte-to-record-type
conversion (modelled as `none`), so the round trip fails for management
record types 9, 10 and 11. -/
theorem frame_codec_roundtrip_cx :
    FastCgiCodec.decode DecodeState.header
      (FastCgiCodec.encode ⟨⟨1, RecordType.management ⟨9⟩, none⟩, [65]⟩) =
      none := by
  rfl

/-- Claim C1 (witness). -/
theorem frame_codec_roundtrip_witness :
    (3 : Nat) < 2 ^ 16 ∧
    ∃ st rest,
      FastCgiCodec.decode DecodeState.header (FastCgiCodec.encode
        ⟨⟨3, RecordType.application .stdout, some Padding.automatic⟩,
          [10, 20, 30]⟩) =
        some (Except.ok
          (some ⟨3, RecordType.application .stdout, [10, 20, 30]⟩,
           st, rest)) :=
  ⟨by decide,
   frame_codec_roundtrip
     ⟨⟨3, RecordType.application .stdout, some Padding.automatic⟩,
      [10, 20, 30]⟩ (by decide) (by decide) True.intro⟩

/-! ## The legal response-frame grammar and the totality of the response
parser (C3) -/

/-- One step of the legal response-frame grammar, keyed on the record type
and payload emptiness of the next frame: stdout and stderr events may occur
until the corresponding terminator has been seen, and EndRequest is legal
exactly when stdout has ended and stderr is unstarted or ended.  The `none`
result marks an out-of-order frame. -/
def RState.gstep : RState → RTransition → Option RState
  | RState.std out err, RTransition.parseStdout _ =>
      if out = Inner.ended then none else some (RState.std Inner.started err)
  | RState.std out err, RTransition.endOfStdout =>
      if out = Inner.ended then none else some (RState.std Inner.ended err)
  | RState.std out err, RTransition.parseStderr _ =>
      if err = Inner.ended then none else some (RState.std out Inner.started)
  | RState.std out err, RTransition.endOfStderr =>
      if err = Inner.ended then none else some (RState.std out Inner.ended)
  | RState.std out err, RTransition.parseEndRequest _ =>
      if out = Inner.ended ∧ err ≠ Inner.started then some RState.finished
      else none
  | RState.finished, _ => none

/-- Run of the legal response-frame grammar. -/
def RState.grun : RState → List RTransition → Option RState
  | g, [] => some g
  | g, t :: ts =>
      match RState.gstep g t with
      | none => none
      | some g2 => RState.grun g2 ts

/-- Well-formed transitions: the ones producible by Transition::parse from
application frames whose EndRequest payloads decode.  Data transitions
carry non-empty payloads by construction. -/
def RTransition.wf : RTransition → Prop
  | .parseStdout p => p ≠ []
  | .parseStderr p => p ≠ []
  | .endOfStdout => True
  | .endOfStderr => True
  | .parseEndRequest p => (EndRequest.decode p).isOk = true

instance : DecidablePred RTransition.wf := fun t =>
  match t with
  | .parseStdout p => inferInstanceAs (Decidable (p ≠ []))
  | .parseStderr p => inferInstanceAs (Decidable (p ≠ []))
  | .endOfStdout => inferInstanceAs (Decidable True)
  | .endOfStderr => inferInstanceAs (Decidable True)
  | .parseEndRequest p =>
      inferInstanceAs (Decidable ((EndRequest.decode p).isOk = true))

/-- Stdout bytes carried by one transition. -/
def RTransition.outBytes : RTransition → Nat
  | .parseStdout p => p.length
  | _ => 0

/-- Stderr bytes carried by one transition. -/
def RTransition.errBytes : RTransition → Nat
  | .parseStderr p => p.length
  | _ => 0

/-- Total stdout bytes of a transition sequence. -/
def outBytes (ts : List RTransition) : Nat :=
  (ts.map RTransition.outBytes).sum

/-- Total stderr bytes of a transition sequence. -/
def errBytes (ts : List RTransition) : Nat :=
  (ts.map RTransition.errBytes).sum

/-- Is this transition the stdout terminator. -/
def isEndOutEv : RTransition → Bool
  | .endOfStdout => true
  | _ => false

/-- Is this transition the stderr terminator. -/
def isEndErrEv : RTransition → Bool
  | .endOfStderr => true
  | _ => false

/-- Is this transition an EndRequest frame. -/
def isEndReqEv : RTransition → Bool
  | .parseEndRequest _ => true
  | _ => false

/-- Does this emission slot hold a Stdout part. -/
def isStdoutSlot : Option RPart → Bool
  | some (RPart.stdout _) => true
  | _ => false

/-- Does this emission slot hold a Stderr part. -/
def isStderrSlot : Option RPart → Bool
  | some (RPart.stderr _) => true
  | _ => false

/-- Does this emission slot hold an EndRequest part. -/
def isEndReqSlot : Option RPart → Bool
  | some (RPart.endRequest _) => true
  | _ => false

/-- Invariant tying a parser state to the stream bytes still to come:
the defragmenters have room for the remaining bytes, buffered payloads are
non-empty, and a started stream has something buffered. -/
def RInv (ps : RParser) (outRem errRem : Nat) : Prop :=
  ps.stdoutDefrag.currentTotalPayload + outRem ≤
      ps.stdoutDefrag.maxTotalPayload ∧
  ps.stderrDefrag.currentTotalPayload + errRem ≤
      ps.stderrDefrag.maxTotalPayload ∧
  (∀ p ∈ ps.stdoutDefrag.payloads, p ≠ []) ∧
  (∀ p ∈ ps.stderrDefrag.payloads, p ≠ []) ∧
  (∀ err, ps.inner = RState.std Inner.started err →
    ps.stdoutDefrag.payloads ≠ []) ∧
  (∀ out, ps.inner = RState.std out Inner.started →
    ps.stderrDefrag.payloads ≠ [])

theorem Defrag.insertPayload_ok (d : Defrag) (p : List Nat)
    (h : d.currentTotalPayload + p.length ≤ d.maxTotalPayload) :
    d.insertPayload p = Except.ok
      ⟨d.payloads ++ [p], d.maxTotalPayload,
       d.currentTotalPayload + p.length⟩ := by
  unfold Defrag.insertPayload
  rw [if_neg (by omega)]

theorem List.flatten_ne_nil_of_mem {l : List (List Nat)}
    (hne : l ≠ []) (hall : ∀ p ∈ l, p ≠ []) : l.flatten ≠ [] := by
  cases l with
  | nil => simp at hne
  | cons p rest =>
      have hp : p ≠ [] := hall p (by simp)
      simp only [List.flatten_cons, ne_eq, List.append_eq_nil]
      intro h
      exact hp h.1

/-- One simulated step: a grammar-legal, well-formed transition is accepted
by the parser, the parser follows the grammar state, the invariant is
preserved, and a part is emitted exactly on terminators and EndRequest. -/
theorem RParser.parse_sim (ps : RParser) (t : RTransition) (g2 : RState)
    (outRem errRem : Nat)
    (hg : RState.gstep ps.inner t = some g2) (hwf : t.wf)
    (hinv : RInv ps (t.outBytes + outRem) (t.errBytes + errRem)) :
    ∃ part ps2, ps.parse t = (Except.ok part, ps2) ∧ ps2.inner = g2 ∧
      RInv ps2 outRem errRem ∧
      isStdoutSlot part = isEndOutEv t ∧
      isStderrSlot part = isEndErrEv t ∧
      isEndReqSlot part = isEndReqEv t := by
  obtain ⟨h1, h2, h3, h4, h5, h6⟩ := hinv
  cases hi : ps.inner with
  | finished => rw [hi] at hg; cases t <;> simp [RState.gstep] at hg
  | std out err =>
      rw [hi] at hg h5 h6
      cases t with
      | parseStdout p =>
          simp only [RTransition.outBytes, RTransition.errBytes] at h1 h2
          simp only [RState.gstep] at hg
          have hout : out ≠ Inner.ended := by
            intro h; rw [h] at hg; simp at hg
          rw [if_neg hout] at hg
          obtain rfl : RState.std Inner.started err = g2 :=
            Option.some_injective _ hg
          have hins := Defrag.insertPayload_ok ps.stdoutDefrag p (by omega)
          have hnewinv : RInv
              { ps with
                inner := RState.std Inner.started err,
                stdoutDefrag :=
                  ⟨ps.stdoutDefrag.payloads ++ [p],
                   ps.stdoutDefrag.maxTotalPayload,
                   ps.stdoutDefrag.currentTotalPayload + p.length⟩ }
              outRem errRem := by
            refine ⟨by simp; omega, by simpa using h2, ?_, h4, ?_, ?_⟩
            · intro q hq
              simp only [List.mem_append, List.mem_singleton] at hq
              rcases hq with hq | rfl
              · exact h3 q hq
              · exact hwf
            · intro e _; simp
            · intro o ho
              simp only at ho
              injection ho with ho1 ho2
              exact h6 out (by rw [ho2])
          cases out with
          | ended => exact absurd rfl hout
          | init =>
              simp only [RParser.parse, hi, hins]
              exact ⟨none, _, rfl, rfl, hnewinv, rfl, rfl, rfl⟩
          | started =>
              simp only [RParser.parse, hi, hins]
              exact ⟨none, _, rfl, rfl, hnewinv, rfl, rfl, rfl⟩
      | endOfStdout =>
          simp only [RTransition.outBytes, RTransition.errBytes] at h1 h2
          simp only [RState.gstep] at hg
          have hout : out ≠ Inner.ended := by
            intro h; rw [h] at hg; simp at hg
          rw [if_neg hout] at hg
          obtain rfl : RState.std Inner.ended err = g2 :=
            Option.some_injective _ hg
          cases out with
          | ended => exact absurd rfl hout
          | init =>
              simp only [RParser.parse, hi]
              refine ⟨some (RPart.stdout none), _, rfl, rfl, ?_, rfl, rfl, rfl⟩
              refine ⟨by simpa using (by omega : ps.stdoutDefrag.currentTotalPayload + outRem ≤ ps.stdoutDefrag.maxTotalPayload), by simpa using (by omega : ps.stderrDefrag.currentTotalPayload + errRem ≤ ps.stderrDefrag.maxTotalPayload), h3, h4, ?_, ?_⟩
              · intro e he; simp only at he; injection he with he1 he2; cases he1
              · intro o ho
                simp only at ho
                injection ho with ho1 ho2
                exact h6 Inner.init (by rw [ho2])
          | started =>
              have hne : ps.stdoutDefrag.payloads ≠ [] := h5 err rfl
              have hflat : ps.stdoutDefrag.payloads.flatten ≠ [] :=
                List.flatten_ne_nil_of_mem hne h3
              have heos : ps.stdoutDefrag.handleEndOfStream =
                  (some ps.stdoutDefrag.payloads.flatten,
                   { ps.stdoutDefrag with payloads := [] }) := by
                unfold Defrag.handleEndOfStream
                rw [if_neg hne]
              have hdec : Stdout.decode ps.stdoutDefrag.payloads.flatten =
                  Except.ok ps.stdoutDefrag.payloads.flatten := by
                unfold Stdout.decode ByteSlice.decode ByteSlice.validateNonEmpty
                rw [if_pos (by simpa using hflat)]
              simp only [RParser.parse, hi, heos, hdec]
              refine ⟨some (RPart.stdout (some ps.stdoutDefrag.payloads.flatten)),
                _, rfl, rfl, ?_, rfl, rfl, rfl⟩
              refine ⟨by simp; omega, by simpa using (by omega : ps.stderrDefrag.currentTotalPayload + errRem ≤ ps.stderrDefrag.maxTotalPayload), ?_, h4, ?_, ?_⟩
              · intro q hq; simp at hq
              · intro e he; simp only at he; injection he with he1 he2; cases he1
              · intro o ho
                simp only at ho
                injection ho with ho1 ho2
                exact h6 Inner.started (by rw [ho2])
      | parseStderr p =>
          simp only [RTransition.outBytes, RTransition.errBytes] at h1 h2
          simp only [RState.gstep] at hg
          have herr : err ≠ Inner.ended := by
            intro h; rw [h] at hg; simp at hg
          rw [if_neg herr] at hg
          obtain rfl : RState.std out Inner.started = g2 :=
            Option.some_injective _ hg
          have hins := Defrag.insertPayload_ok ps.stderrDefrag p (by omega)
          have hnewinv : RInv
              { ps with
                inner := RState.std out Inner.started,
                stderrDefrag :=
                  ⟨ps.stderrDefrag.payloads ++ [p],
                   ps.stderrDefrag.maxTotalPayload,
                   ps.stderrDefrag.currentTotalPayload + p.length⟩ }
              outRem errRem := by
            refine ⟨by simpa using h1, by simp; omega, h3, ?_, ?_, ?_⟩
            · intro q hq
              simp only [List.mem_append, List.mem_singleton] at hq
              rcases hq with hq | rfl
              · exact h4 q hq
              · exact hwf
            · intro e he
              simp only at he
              injection he with he1 he2
              exact h5 err (by rw [he1])
            · intro o _; simp
          cases err with
          | ended => exact absurd rfl herr
          | init =>
              simp only [RParser.parse, hi, hins]
              exact ⟨none, _, rfl, rfl, hnewinv, rfl, rfl, rfl⟩
          | started =>
              simp only [RParser.parse, hi, hins]
              exact ⟨none, _, rfl, rfl, hnewinv, rfl, rfl, rfl⟩
      | endOfStderr =>
          simp only [RTransition.outBytes, RTransition.errBytes] at h1 h2
          simp only [RState.gstep] at hg
          have herr : err ≠ Inner.ended := by
            intro h; rw [h] at hg; simp at hg
          rw [if_neg herr] at hg
          obtain rfl : RState.std out Inner.ended = g2 :=
            Option.some_injective _ hg
          cases err with
          | ended => exact absurd rfl herr
          | init =>
              simp only [RParser.parse, hi]
              refine ⟨some (RPart.stderr none), _, rfl, rfl, ?_, rfl, rfl, rfl⟩
              refine ⟨by simpa using (by omega : ps.stdoutDefrag.currentTotalPayload + outRem ≤ ps.stdoutDefrag.maxTotalPayload), by simpa using (by omega : ps.stderrDefrag.currentTotalPayload + errRem ≤ ps.stderrDefrag.maxTotalPayload), h3, h4, ?_, ?_⟩
              · intro e he
                simp only at he
                injection he with he1 he2
                exact h5 Inner.init (by rw [he1])
              · intro o ho; simp only at ho; injection ho with ho1 ho2; cases ho2
          | started =>
              have hne : ps.stderrDefrag.payloads ≠ [] := h6 out rfl
              have hflat : ps.stderrDefrag.payloads.flatten ≠ [] :=
                List.flatten_ne_nil_of_mem hne h4
              have heos : ps.stderrDefrag.handleEndOfStream =
                  (some ps.stderrDefrag.payloads.flatten,
                   { ps.stderrDefrag with payloads := [] }) := by
                unfold Defrag.handleEndOfStream
                rw [if_neg hne]
              have hdec : Stderr.decode ps.stderrDefrag.payloads.flatten =
                  Except.ok ps.stderrDefrag.payloads.flatten := by
                unfold Stderr.decode ByteSlice.decode ByteSlice.validateNonEmpty
                rw [if_pos (by simpa using hflat)]
              simp only [RParser.parse, hi, heos, hdec]
              refine ⟨some (RPart.stderr (some ps.stderrDefrag.payloads.flatten)),
                _, rfl, rfl, ?_, rfl, rfl, rfl⟩
              refine ⟨by simpa using (by omega : ps.stdoutDefrag.currentTotalPayload + outRem ≤ ps.stdoutDefrag.maxTotalPayload), by simp; omega, h3, ?_, ?_, ?_⟩
              · intro q hq; simp at hq
              · intro e he
                simp only at he
                injection he with he1 he2
                exact h5 Inner.started (by rw [he1])
              · intro o ho; simp only at ho; injection ho with ho1 ho2; cases ho2
      | parseEndRequest p =>
          simp only [RTransition.outBytes, RTransition.errBytes] at h1 h2
          simp only [RState.gstep] at hg
          by_cases hcond : out = Inner.ended ∧ err ≠ Inner.started
          · rw [if_pos hcond] at hg
            obtain rfl : RState.finished = g2 := Option.some_injective _ hg
            obtain ⟨rfl, herr⟩ := hcond
            obtain ⟨er, her⟩ : ∃ er, EndRequest.decode p = Except.ok er := by
              cases hd : EndRequest.decode p with
              | error e =>
                  rw [RTransition.wf, hd] at hwf
                  simp [Except.isOk, Except.toBool] at hwf
              | ok er => exact ⟨er, rfl⟩
            have hinv2 : RInv
                { ps with inner := RState.finished } outRem errRem := by
              refine ⟨by simpa using (by omega : ps.stdoutDefrag.currentTotalPayload + outRem ≤ ps.stdoutDefrag.maxTotalPayload), by simpa using (by omega : ps.stderrDefrag.currentTotalPayload + errRem ≤ ps.stderrDefrag.maxTotalPayload), h3, h4, ?_, ?_⟩
              · intro e he; simp at he
              · intro o ho; simp at ho
            cases err with
            | started => exact absurd rfl herr
            | init =>
                simp only [RParser.parse, hi, her]
                exact ⟨some (RPart.endRequest er), _, rfl, rfl, hinv2,
                  rfl, rfl, rfl⟩
            | ended =>
                simp only [RParser.parse, hi, her]
                exact ⟨some (RPart.endRequest er), _, rfl, rfl, hinv2,
                  rfl, rfl, rfl⟩
          · rw [if_neg hcond] at hg; cases hg

/-- Run-level simulation: a grammar run from the current parser state is
followed by the parser, and parts are emitted exactly on terminator and
EndRequest events. -/
theorem RParser.run_sim :
    ∀ (ts : List RTransition) (ps : RParser) (gf : RState),
      RState.grun ps.inner ts = some gf → (∀ t ∈ ts, t.wf) →
      RInv ps (outBytes ts) (errBytes ts) →
      ∃ psf log, ps.run ts = Except.ok (psf, log) ∧ psf.inner = gf ∧
        log.countP isStdoutSlot = ts.countP isEndOutEv ∧
        log.countP isStderrSlot = ts.countP isEndErrEv ∧
        log.countP isEndReqSlot = ts.countP isEndReqEv
  | [], ps, gf, hg, _, _ => by
      simp only [RState.grun] at hg
      exact ⟨ps, [], rfl, by injection hg, by simp, by simp, by simp⟩
  | t :: ts, ps, gf, hg, hwf, hinv => by
      simp only [RState.grun] at hg
      cases hstep : RState.gstep ps.inner t with
      | none => rw [hstep] at hg; cases hg
      | some g2 =>
          rw [hstep] at hg
          have houtb : outBytes (t :: ts) = t.outBytes + outBytes ts := by
            simp [outBytes]
          have herrb : errBytes (t :: ts) = t.errBytes + errBytes ts := by
            simp [errBytes]
          rw [houtb, herrb] at hinv
          obtain ⟨part, ps2, hparse, hinner2, hinv2, hso, hse, hereq⟩ :=
            RParser.parse_sim ps t g2 (outBytes ts) (errBytes ts) hstep
              (hwf t (by simp)) hinv
          obtain ⟨psf, log, hrun, hfin, c1, c2, c3⟩ :=
            RParser.run_sim ts ps2 gf (by rw [hinner2]; exact hg)
              (fun x hx => hwf x (by simp [hx])) hinv2
          refine ⟨psf, part :: log, ?_, hfin, ?_, ?_, ?_⟩
          · simp only [RParser.run, hparse, hrun]
          · simp [List.countP_cons, c1, hso]
          · simp [List.countP_cons, c2, hse]
          · simp [List.countP_cons, c3, hereq]

theorem RState.grun_finished (ts : List RTransition) (gf : RState)
    (h : RState.grun RState.finished ts = some gf) :
    ts = [] ∧ gf = RState.finished := by
  cases ts with
  | nil =>
      simp only [RState.grun] at h
      exact ⟨rfl, (Option.some_injective _ h).symm⟩
  | cons t ts =>
      simp only [RState.grun] at h
      cases t <;> simp [RState.gstep] at h

/-- Event counts along a completed grammar run: one stdout terminator
unless stdout had already ended, exactly one EndRequest, and at most one
stderr terminator. -/
theorem RState.grun_counts :
    ∀ (ts : List RTransition) (out err : Inner),
      RState.grun (RState.std out err) ts = some RState.finished →
      ts.countP isEndOutEv = (if out = Inner.ended then 0 else 1) ∧
      ts.countP isEndReqEv = 1 ∧
      ts.countP isEndErrEv ≤ (if err = Inner.ended then 0 else 1)
  | [], out, err, h => by simp [RState.grun] at h
  | t :: ts, out, err, h => by
      simp only [RState.grun] at h
      cases t with
      | parseStdout p =>
          simp only [RState.gstep] at h
          by_cases hc : out = Inner.ended
          · rw [if_pos hc] at h; cases h
          · rw [if_neg hc] at h
            obtain ⟨k1, k2, k3⟩ := RState.grun_counts ts Inner.started err h
            refine ⟨?_, ?_, ?_⟩
            · simp only [List.countP_cons, isEndOutEv] at k1 ⊢
              simp [k1, hc]
            · simpa [List.countP_cons, isEndReqEv] using k2
            · simpa [List.countP_cons, isEndErrEv] using k3
      | endOfStdout =>
          simp only [RState.gstep] at h
          by_cases hc : out = Inner.ended
          · rw [if_pos hc] at h; cases h
          · rw [if_neg hc] at h
            obtain ⟨k1, k2, k3⟩ := RState.grun_counts ts Inner.ended err h
            have k1z : List.countP isEndOutEv ts = 0 := by simpa using k1
            refine ⟨?_, ?_, ?_⟩
            · simp [List.countP_cons, isEndOutEv, hc, k1z]
            · simpa [List.countP_cons, isEndReqEv] using k2
            · simpa [List.countP_cons, isEndErrEv] using k3
      | parseStderr p =>
          simp only [RState.gstep] at h
          by_cases hc : err = Inner.ended
          · rw [if_pos hc] at h; cases h
          · rw [if_neg hc] at h
            obtain ⟨k1, k2, k3⟩ := RState.grun_counts ts out Inner.started h
            refine ⟨?_, ?_, ?_⟩
            · simpa [List.countP_cons, isEndOutEv] using k1
            · simpa [List.countP_cons, isEndReqEv] using k2
            · have k3o : List.countP isEndErrEv ts ≤ 1 := by simpa using k3
              simp only [List.countP_cons, isEndErrEv]
              simp [hc]
              omega
      | endOfStderr =>
          simp only [RState.gstep] at h
          by_cases hc : err = Inner.ended
          · rw [if_pos hc] at h; cases h
          · rw [if_neg hc] at h
            obtain ⟨k1, k2, k3⟩ := RState.grun_counts ts out Inner.ended h
            have k3z : List.countP isEndErrEv ts = 0 := by
              have := k3
              simp at this
              simpa using this
            refine ⟨?_, ?_, ?_⟩
            · simpa [List.countP_cons, isEndOutEv] using k1
            · simpa [List.countP_cons, isEndReqEv] using k2
            · simp [List.countP_cons, isEndErrEv, hc, k3z]
      | parseEndRequest p =>
          simp only [RState.gstep] at h
          by_cases hc : out = Inner.ended ∧ err ≠ Inner.started
          · rw [if_pos hc] at h
            obtain ⟨rfl, -⟩ := RState.grun_finished ts _ h
            refine ⟨?_, ?_, ?_⟩
            · simp [List.countP_cons, isEndOutEv, hc.1]
            · simp [List.countP_cons, isEndReqEv]
            · simp [List.countP_cons, isEndErrEv]
          · rw [if_neg hc] at h; cases h

/-- An out-of-order event is answered with InvalidState by the parser, in
every reachable combination of state and event. -/
theorem RParser.parse_offense (ps : RParser) (e : RTransition)
    (h : RState.gstep ps.inner e = none) :
    (ps.parse e).1 = Except.error ParseResponseError.invalidState := by
  cases hi : ps.inner with
  | finished => cases e <;> simp [RParser.parse, hi]
  | std out err =>
      rw [hi] at h
      cases out <;> cases err <;> cases e <;>
        simp_all [RParser.parse, RState.gstep, hi]

/-- An error of a later segment propagates through a run of the
concatenation. -/
theorem RParser.run_append_error :
    ∀ (l1 : List RTransition) (ps ps2 : RParser) (log : List (Option RPart))
      (l2 : List RTransition) (e : ParseResponseError),
      ps.run l1 = Except.ok (ps2, log) → ps2.run l2 = Except.error e →
      ps.run (l1 ++ l2) = Except.error e
  | [], ps, ps2, log, l2, e, h1, h2 => by
      simp only [RParser.run] at h1
      injection h1 with hpair
      injection hpair with hA hB
      subst hA
      subst hB
      exact h2
  | t :: l1, ps, ps2, log, l2, e, h1, h2 => by
      simp only [RParser.run] at h1 ⊢
      cases hp : ps.parse t with
      | mk res psm =>
          simp only [hp] at h1 ⊢
          cases res with
          | error e2 => exact Except.noConfusion h1
          | ok part =>
              dsimp only at h1 ⊢
              cases hr : psm.run l1 with
              | error e2 =>
                  rw [hr] at h1
                  exact Except.noConfusion h1
              | ok pr =>
                  obtain ⟨psf, logf⟩ := pr
                  rw [hr] at h1
                  injection h1 with hpair
                  have hps : psf = ps2 := congrArg Prod.fst hpair
                  rw [hps] at hr
                  have hrec := RParser.run_append_error l1 psm ps2 logf l2 e
                    hr h2
                  rw [show l1.append l2 = l1 ++ l2 from rfl, hrec]

/-- The initial parser satisfies the invariant whenever the stream totals
fit below the configured cap. -/
theorem RInv.new (max o e : Nat) (hout : o ≤ max) (herr : e ≤ max) :
    RInv (RParser.new max) o e := by
  refine ⟨?_, ?_, ?_, ?_, ?_, ?_⟩
  · simpa [RParser.new, Defrag.new, Defrag.default,
      Defrag.withMaxPayloadSize] using hout
  · simpa [RParser.new, Defrag.new, Defrag.default,
      Defrag.withMaxPayloadSize] using herr
  · intro p hp
    simp [RParser.new, Defrag.new, Defrag.default,
      Defrag.withMaxPayloadSize] at hp
  · intro p hp
    simp [RParser.new, Defrag.new, Defrag.default,
      Defrag.withMaxPayloadSize] at hp
  · intro x hx
    simp [RParser.new] at hx
  · intro x hx
    simp [RParser.new] at hx

/-- Claim C3 (amended): (a) for every transition sequence following the
legal response grammar — stdout data frames and exactly one stdout
terminator, optional stderr data frames with their terminator, arbitrarily
interleaved, then one well-formed EndRequest arriving while stderr is
unstarted or terminated — whose stream totals stay within the cap, the
parser accepts the sequence, ends in Finished, and emits exactly one Stdout
part, exactly one EndRequest part, and exactly as many Stderr parts as
stderr terminators arrived (one if stderr terminated, none if it stayed
unstarted; never more than one).  (b) Every sequence that deviates from the
grammar fails with InvalidState at the first offending transition. -/
theorem response_parser_totality :
    (∀ (max : Nat) (ts : List RTransition),
      RState.grun (RState.std Inner.init Inner.init) ts =
        some RState.finished →
      (∀ t ∈ ts, t.wf) →
      outBytes ts ≤ max → errBytes ts ≤ max →
      ∃ psf log, (RParser.new max).run ts = Except.ok (psf, log) ∧
        psf.inner = RState.finished ∧
        log.countP isStdoutSlot = 1 ∧
        log.countP isEndReqSlot = 1 ∧
        log.countP isStderrSlot = ts.countP isEndErrEv ∧
        ts.countP isEndErrEv ≤ 1) ∧
    (∀ (max : Nat) (ts rest : List RTransition) (e : RTransition)
        (g : RState),
      RState.grun (RState.std Inner.init Inner.init) ts = some g →
      RState.gstep g e = none →
      (∀ t ∈ ts, t.wf) →
      outBytes ts ≤ max → errBytes ts ≤ max →
      (RParser.new max).run (ts ++ e :: rest) =
        Except.error ParseResponseError.invalidState) := by
  constructor
  · intro max ts hleg hwf hout herr
    obtain ⟨psf, log, hrun, hfin, c1, c2, c3⟩ :=
      RParser.run_sim ts (RParser.new max) RState.finished hleg hwf
        (RInv.new max _ _ hout herr)
    obtain ⟨k1, k2, k3⟩ := RState.grun_counts ts Inner.init Inner.init hleg
    refine ⟨psf, log, hrun, hfin, ?_, ?_, c2, ?_⟩
    · rw [c1, k1]; simp
    · rw [c3, k2]
    · simpa using k3
  · intro max ts rest e g hpre hoff hwf hout herr
    obtain ⟨psf, log, hrun, hfin, -, -, -⟩ :=
      RParser.run_sim ts (RParser.new max) g hpre hwf
        (RInv.new max _ _ hout herr)
    have hoff2 : RState.gstep psf.inner e = none := by rw [hfin]; exact hoff
    have hperr := RParser.parse_offense psf e hoff2
    have hstep : psf.run (e :: rest) =
        Except.error ParseResponseError.invalidState := by
      cases hp2 : psf.parse e with
      | mk res q =>
          have hres : res = Except.error ParseResponseError.invalidState := by
            rw [hp2] at hperr
            exact hperr
          subst hres
          simp only [RParser.run, hp2]
    exact RParser.run_append_error ts (RParser.new max) psf log (e :: rest)
      _ hrun hstep

/-- Claim C3 (counterexample): the sequence consisting of the stdout
terminator followed by a well-formed EndRequest is legal (stderr stays
unstarted), the parser accepts it and finishes, yet no Stderr part is ever
emitted — refuting the claim that every legal sequence yields exactly one
Stderr part. -/
theorem response_parser_totality_cx :
    RState.grun (RState.std Inner.init Inner.init)
        [RTransition.endOfStdout,
         RTransition.parseEndRequest [0, 0, 0, 0, 0, 0, 0, 0]] =
      some RState.finished ∧
    (RParser.new 0x4000000).run
        [RTransition.endOfStdout,
         RTransition.parseEndRequest [0, 0, 0, 0, 0, 0, 0, 0]] =
      Except.ok
        (⟨RState.finished, ⟨[], 0x4000000, 0⟩, ⟨[], 0x4000000, 0⟩⟩,
         [some (RPart.stdout none),
          some (RPart.endRequest ⟨0, ProtocolStatus.requestComplete⟩)]) ∧
    [some (RPart.stdout none),
     some (RPart.endRequest ⟨0, ProtocolStatus.requestComplete⟩)].countP
        isStderrSlot = 0 :=
  ⟨by decide, by rfl, by decide⟩

/-- Claim C3 (witness). -/
theorem response_parser_totality_witness :
    (RState.grun (RState.std Inner.init Inner.init)
        [RTransition.parseStdout [7], RTransition.endOfStdout,
         RTransition.endOfStderr,
         RTransition.parseEndRequest [0, 0, 0, 0, 0, 0, 0, 0]] =
      some RState.finished) ∧
    (∃ psf log,
      (RParser.new 0x4000000).run
          [RTransition.parseStdout [7], RTransition.endOfStdout,
           RTransition.endOfStderr,
           RTransition.parseEndRequest [0, 0, 0, 0, 0, 0, 0, 0]] =
        Except.ok (psf, log) ∧
      psf.inner = RState.finished ∧
      log.countP isStdoutSlot = 1 ∧
      log.countP isEndReqSlot = 1 ∧
      log.countP isStderrSlot =
        ([RTransition.parseStdout [7], RTransition.endOfStdout,
          RTransition.endOfStderr,
          RTransition.parseEndRequest [0, 0, 0, 0, 0, 0, 0, 0]].countP
          isEndErrEv) ∧
      ([RTransition.parseStdout [7], RTransition.endOfStdout,
        RTransition.endOfStderr,
        RTransition.parseEndRequest [0, 0, 0, 0, 0, 0, 0, 0]].countP
        isEndErrEv) ≤ 1) ∧
    (RParser.new 0x4000000).run
        ([] ++ RTransition.parseEndRequest [0, 0, 0, 0, 0, 0, 0, 0] :: []) =
      Except.error ParseResponseError.invalidState :=
  ⟨by decide,
   response_parser_totality.1 0x4000000 _ (by decide) (by decide) (by decide)
     (by decide),
   response_parser_totality.2 0x4000000 [] []
     (RTransition.parseEndRequest [0, 0, 0, 0, 0, 0, 0, 0])
     (RState.std Inner.init Inner.init) (by decide) (by decide) (by decide)
     (by decide) (by decide)⟩

/-! ## The defragmenter cap (C7) -/

/-- Total byte count of a list of payloads. -/
def payloadSum (ps : List (List Nat)) : Nat :=
  (ps.map List.length).sum

/-- Folding Defrag::insert_payload over a sequence of payloads, stopping at
the first error. -/
def Defrag.insertSeq (d : Defrag) :
    List (List Nat) → Except MaximumStreamSizeExceeded Defrag
  | [] => Except.ok d
  | p :: ps =>
      match d.insertPayload p with
      | Except.error e => Except.error e
      | Except.ok d2 => d2.insertSeq ps

theorem Defrag.insertPayload_err (d : Defrag) (p : List Nat)
    (h : d.maxTotalPayload < d.currentTotalPayload + p.length) :
    d.insertPayload p = Except.error
      ⟨d.currentTotalPayload + p.length, d.maxTotalPayload⟩ := by
  unfold Defrag.insertPayload
  rw [if_pos h]

theorem Defrag.insertSeq_ok :
    ∀ (ps : List (List Nat)) (d : Defrag),
      d.currentTotalPayload + payloadSum ps ≤ d.maxTotalPayload →
      d.insertSeq ps = Except.ok
        ⟨d.payloads ++ ps, d.maxTotalPayload,
         d.currentTotalPayload + payloadSum ps⟩
  | [], d, h => by cases d; simp [Defrag.insertSeq, payloadSum]
  | p :: ps, d, h => by
      have hsum : payloadSum (p :: ps) = p.length + payloadSum ps := by
        simp [payloadSum]
      have hp : d.currentTotalPayload + p.length ≤ d.maxTotalPayload := by
        rw [hsum] at h; omega
      simp only [Defrag.insertSeq, Defrag.insertPayload_ok d p hp]
      rw [Defrag.insertSeq_ok ps _ (by rw [hsum] at h; simp; omega)]
      simp [List.append_assoc, hsum]
      omega

theorem Defrag.insertSeq_err :
    ∀ (qs : List (List Nat)) (d : Defrag) (p : List Nat)
      (rs : List (List Nat)),
      d.currentTotalPayload + payloadSum qs ≤ d.maxTotalPayload →
      d.maxTotalPayload < d.currentTotalPayload + payloadSum qs + p.length →
      d.insertSeq (qs ++ p :: rs) = Except.error
        ⟨d.currentTotalPayload + payloadSum qs + p.length,
         d.maxTotalPayload⟩
  | [], d, p, rs, h1, h2 => by
      simp only [payloadSum, List.map_nil, List.sum_nil, Nat.add_zero] at h2 ⊢
      simp only [List.nil_append, Defrag.insertSeq,
        Defrag.insertPayload_err d p h2]
  | q :: qs, d, p, rs, h1, h2 => by
      have hsum : payloadSum (q :: qs) = q.length + payloadSum qs := by
        simp [payloadSum]
      have hq : d.currentTotalPayload + q.length ≤ d.maxTotalPayload := by
        rw [hsum] at h1; omega
      simp only [List.cons_append, Defrag.insertSeq,
        Defrag.insertPayload_ok d q hq]
      rw [show (qs.append (p :: rs)) = qs ++ p :: rs from rfl]
      rw [Defrag.insertSeq_err qs _ p rs (by rw [hsum] at h1; simp; omega)
        (by rw [hsum] at h2; simp; omega)]
      rw [hsum]
      congr 1
      simp
      omega

/-- Claim C7: an insertion keeping the accumulated total at or below the
cap succeeds (and a whole in-cap sequence accumulates all payloads); the
first insertion pushing the total past the cap fails with
MaximumStreamSizeExceeded carrying the attempted total and the limit; the
default cap is 64 MiB. -/
theorem defrag_stream_size_cap :
    (∀ (d : Defrag) (p : List Nat),
      (d.currentTotalPayload + p.length ≤ d.maxTotalPayload →
        d.insertPayload p = Except.ok
          ⟨d.payloads ++ [p], d.maxTotalPayload,
           d.currentTotalPayload + p.length⟩) ∧
      (d.maxTotalPayload < d.currentTotalPayload + p.length →
        d.insertPayload p = Except.error
          ⟨d.currentTotalPayload + p.length, d.maxTotalPayload⟩)) ∧
    (∀ (limit : Nat) (ps : List (List Nat)),
      payloadSum ps ≤ limit →
      (Defrag.default.withMaxPayloadSize limit).insertSeq ps =
        Except.ok ⟨ps, limit, payloadSum ps⟩) ∧
    (∀ (limit : Nat) (qs : List (List Nat)) (p : List Nat)
        (rs : List (List Nat)),
      payloadSum qs ≤ limit → limit < payloadSum qs + p.length →
      (Defrag.default.withMaxPayloadSize limit).insertSeq (qs ++ p :: rs) =
        Except.error ⟨payloadSum qs + p.length, limit⟩) ∧
    Defrag.default.maxTotalPayload = 64 * 1024 * 1024 := by
  refine ⟨fun d p => ⟨Defrag.insertPayload_ok d p, Defrag.insertPayload_err d p⟩,
    ?_, ?_, by decide⟩
  · intro limit ps h
    have := Defrag.insertSeq_ok ps (Defrag.default.withMaxPayloadSize limit)
      (by simpa [Defrag.default, Defrag.withMaxPayloadSize] using h)
    simpa [Defrag.default, Defrag.withMaxPayloadSize] using this
  · intro limit qs p rs h1 h2
    have := Defrag.insertSeq_err qs (Defrag.default.withMaxPayloadSize limit)
      p rs (by simpa [Defrag.default, Defrag.withMaxPayloadSize] using h1)
      (by simpa [Defrag.default, Defrag.withMaxPayloadSize] using h2)
    simpa [Defrag.default, Defrag.withMaxPayloadSize] using this

/-- Claim C7 (witness). -/
theorem defrag_stream_size_cap_witness :
    payloadSum [[1, 2, 3]] ≤ 5 ∧ (5 : Nat) < payloadSum [[1, 2, 3]] + 3 ∧
    (Defrag.default.withMaxPayloadSize 5).insertSeq
        ([[1, 2, 3]] ++ [7, 7, 7] :: []) =
      Except.error ⟨6, 5⟩ :=
  ⟨by decide, by decide,
   defrag_stream_size_cap.2.2.1 5 [[1, 2, 3]] [7, 7, 7] [] (by decide)
     (by decide)⟩

/-! ## BeginRequest decoding (C9) -/

theorem Role.tryFromU16_err (v : Nat) (h1 : v ≠ 1) (h2 : v ≠ 2)
    (h3 : v ≠ 3) :
    Role.tryFromU16 v = Except.error DecodeError.corruptedFrame := by
  match v with
  | 0 => rfl
  | 1 => exact absurd rfl h1
  | 2 => exact absurd rfl h2
  | 3 => exact absurd rfl h3
  | n + 4 => rfl

/-- Claim C9 (amended): on an 8-byte payload of bytes, decode succeeds
exactly when the first two bytes read big-endian are 1, 2 or 3 and the
trailing five bytes are all zero, failing with CorruptedFrame otherwise;
on success the keep_conn flag is set exactly when the flags byte (index 2)
is non-zero — the whole byte, not only bit 0. -/
theorem begin_request_decode_flags (b0 b1 b2 b3 b4 b5 b6 b7 : Nat)
    (hb : b0 < 256 ∧ b1 < 256 ∧ b2 < 256 ∧ b3 < 256 ∧ b4 < 256 ∧
      b5 < 256 ∧ b6 < 256 ∧ b7 < 256) :
    (((b0 * 256 + b1 = 1 ∨ b0 * 256 + b1 = 2 ∨ b0 * 256 + b1 = 3) ∧
        b3 = 0 ∧ b4 = 0 ∧ b5 = 0 ∧ b6 = 0 ∧ b7 = 0) →
      ∃ role, Role.tryFromU16 (b0 * 256 + b1) = Except.ok role ∧
        BeginRequest.decode [b0, b1, b2, b3, b4, b5, b6, b7] =
          Except.ok ⟨role, decide (0 < b2)⟩) ∧
    (¬ ((b0 * 256 + b1 = 1 ∨ b0 * 256 + b1 = 2 ∨ b0 * 256 + b1 = 3) ∧
        b3 = 0 ∧ b4 = 0 ∧ b5 = 0 ∧ b6 = 0 ∧ b7 = 0) →
      BeginRequest.decode [b0, b1, b2, b3, b4, b5, b6, b7] =
        Except.error DecodeError.corruptedFrame) := by
  obtain ⟨e0, e1, e2, e3, e4, e5, e6, e7⟩ := hb
  have m0 : b0 % 2 ^ 8 = b0 := Nat.mod_eq_of_lt e0
  have m1 : b1 % 2 ^ 8 = b1 := Nat.mod_eq_of_lt e1
  have m2 : b2 % 2 ^ 8 = b2 := Nat.mod_eq_of_lt e2
  have m3 : b3 % 2 ^ 8 = b3 := Nat.mod_eq_of_lt e3
  have m4 : b4 % 2 ^ 8 = b4 := Nat.mod_eq_of_lt e4
  have m5 : b5 % 2 ^ 8 = b5 := Nat.mod_eq_of_lt e5
  have m6 : b6 % 2 ^ 8 = b6 := Nat.mod_eq_of_lt e6
  have m7 : b7 % 2 ^ 8 = b7 := Nat.mod_eq_of_lt e7
  have hlen : ¬ (([b0, b1, b2, b3, b4, b5, b6, b7] : List Nat).length ≠ 8) :=
    by simp
  have hu : u64FromBeBytes [b0, b1, b2, b3, b4, b5, b6, b7] =
      ((((((b0 * 2 ^ 8 + b1) * 2 ^ 8 + b2) * 2 ^ 8 + b3) * 2 ^ 8 + b4) *
        2 ^ 8 + b5) * 2 ^ 8 + b6) * 2 ^ 8 + b7 := by
    simp only [u64FromBeBytes, List.foldl]
    rw [m0, m1, m2, m3, m4, m5, m6, m7]
    ring
  have hzero : (u64FromBeBytes [b0, b1, b2, b3, b4, b5, b6, b7] * 2 ^ 24 %
      2 ^ 64 = 0) ↔ (b3 = 0 ∧ b4 = 0 ∧ b5 = 0 ∧ b6 = 0 ∧ b7 = 0) := by
    rw [hu]
    constructor
    · intro h
      constructor
      · omega
      constructor
      · omega
      constructor
      · omega
      constructor
      · omega
      · omega
    · rintro ⟨rfl, rfl, rfl, rfl, rfl⟩
      omega
  constructor
  · rintro ⟨hrole, hz3, hz4, hz5, hz6, hz7⟩
    have hzz : ¬ (0 < u64FromBeBytes [b0, b1, b2, b3, b4, b5, b6, b7] *
        2 ^ 24 % 2 ^ 64) := by
      have := hzero.2 ⟨hz3, hz4, hz5, hz6, hz7⟩
      omega
    have hrdec : ∃ role,
        Role.tryFromU16 (b0 * 256 + b1) = Except.ok role := by
      rcases hrole with h | h | h <;> rw [h]
      · exact ⟨Role.responder, rfl⟩
      · exact ⟨Role.authorizer, rfl⟩
      · exact ⟨Role.filter, rfl⟩
    obtain ⟨role, hrdec⟩ := hrdec
    refine ⟨role, hrdec, ?_⟩
    unfold BeginRequest.decode
    rw [if_neg hlen]
    have hargs : ([b0, b1, b2, b3, b4, b5, b6, b7] : List Nat).getD 0 0 %
        2 ^ 8 * 2 ^ 8 + ([b0, b1, b2, b3, b4, b5, b6, b7] :
        List Nat).getD 1 0 % 2 ^ 8 = b0 * 256 + b1 := by
      simp only [List.getD_cons_zero, List.getD_cons_succ, m0, m1]
      ring
    rw [hargs]
    simp only [hrdec]
    rw [if_neg hzz]
    by_cases hb2 : 0 < b2
    · rw [if_pos (by simpa using hb2)]
      simp [hb2]
    · rw [if_neg (by simpa using hb2)]
      simp [hb2]
  · intro hno
    unfold BeginRequest.decode
    rw [if_neg hlen]
    have hargs : ([b0, b1, b2, b3, b4, b5, b6, b7] : List Nat).getD 0 0 %
        2 ^ 8 * 2 ^ 8 + ([b0, b1, b2, b3, b4, b5, b6, b7] :
        List Nat).getD 1 0 % 2 ^ 8 = b0 * 256 + b1 := by
      simp only [List.getD_cons_zero, List.getD_cons_succ, m0, m1]
      ring
    rw [hargs]
    by_cases hrole : b0 * 256 + b1 = 1 ∨ b0 * 256 + b1 = 2 ∨
        b0 * 256 + b1 = 3
    · have hnz : ¬ (b3 = 0 ∧ b4 = 0 ∧ b5 = 0 ∧ b6 = 0 ∧ b7 = 0) :=
        fun hz => hno ⟨hrole, hz⟩
      have hpos : 0 < u64FromBeBytes [b0, b1, b2, b3, b4, b5, b6, b7] *
          2 ^ 24 % 2 ^ 64 := by
        rcases Nat.eq_zero_or_pos (u64FromBeBytes
          [b0, b1, b2, b3, b4, b5, b6, b7] * 2 ^ 24 % 2 ^ 64) with h | h
        · exact absurd (hzero.1 h) hnz
        · exact h
      rcases hrole with h | h | h <;> rw [h] <;>
        simp only [Role.tryFromU16] <;> rw [if_pos hpos]
    · push_neg at hrole
      rw [Role.tryFromU16_err _ hrole.1 hrole.2.1 hrole.2.2]

/-- Claim C9 (counterexample): the payload with role Responder, flags byte
equal to 2 (bit 0 clear) and zero trailing bytes decodes successfully with
keep_conn set to true, while bit 0 of the flags byte is 0 — the decoder
tests the whole flags byte against zero, not bit 0. -/
theorem begin_request_decode_cx :
    BeginRequest.decode [0, 1, 2, 0, 0, 0, 0, 0] =
      Except.ok ⟨Role.responder, true⟩ ∧ 2 % 2 = 0 :=
  ⟨by rfl, by decide⟩

/-- Claim C9 (witness). -/
theorem begin_request_decode_witness :
    ((0 : Nat) < 256 ∧ (1 : Nat) < 256 ∧ (2 : Nat) < 256 ∧ (0 : Nat) < 256 ∧
      (0 : Nat) < 256 ∧ (0 : Nat) < 256 ∧ (0 : Nat) < 256 ∧
      (0 : Nat) < 256) ∧
    (((0 * 256 + 1 = 1 ∨ 0 * 256 + 1 = 2 ∨ 0 * 256 + 1 = 3) ∧
        (0 : Nat) = 0 ∧ (0 : Nat) = 0 ∧ (0 : Nat) = 0 ∧ (0 : Nat) = 0 ∧
        (0 : Nat) = 0) →
      ∃ role, Role.tryFromU16 (0 * 256 + 1) = Except.ok role ∧
        BeginRequest.decode [0, 1, 2, 0, 0, 0, 0, 0] =
          Except.ok ⟨role, decide ((0 : Nat) < 2)⟩) :=
  ⟨by decide,
   (begin_request_decode_flags 0 1 2 0 0 0 0 0 (by decide)).1⟩

/-! ## Server request parsers (C4): the rewritten one in
src/protocol/parser/request.rs and the legacy one in src/conn/parser.rs -/

/-- Stdin::decode, src/protocol/record/standard.rs (non-empty byte
slice). -/
def Stdin.decode (src : List Nat) : Except DecodeError (List Nat) :=
  ByteSlice.decode src ByteSlice.validateNonEmpty

/-- Data::decode, src/protocol/record/data.rs: wraps the bytes without
validation. -/
def DataRec.decode (src : List Nat) : Except DecodeError (List Nat) :=
  Except.ok src

/-- States of the server request parser. -/
inductive QState
  | beginRequest
  | params
  | stdin
  | data
  | finished
  | aborted
deriving DecidableEq, Repr

/-- Transitions of the rewritten request parser. -/
inductive QTransition
  | parse (f : Frame)
  | endOfStream (rt : RecordType)
  | abort

/-- Transition::parse of src/protocol/parser/request.rs: non-empty payloads
are Parse events, an empty AbortRequest is Abort, any other empty frame is
EndOfStream; the assert on a zero id models as `none`. -/
def QTransition.parseFrame (f : Frame) : Option QTransition :=
  if f.id = 0 then none
  else some (
    if ¬ f.payload.isEmpty then QTransition.parse f
    else if f.recordType = RecordType.application .abortRequest then
      QTransition.abort
    else QTransition.endOfStream f.recordType)

/-- Parts emitted by the rewritten request parser.  The decoded Params and
Data values are represented by their byte payloads. -/
inductive QPart
  | beginRequest (br : BeginRequest)
  | abortRequest
  | params (v : List Nat)
  | stdin (o : Option (List Nat))
  | data (v : List Nat)
deriving DecidableEq, Repr

/-- Errors of the rewritten request parser. -/
inductive ParseRequestError
  | invalidParser
  | unexpectedRecordType (t : RecordType)
  | paramsMustBeLargerThanZero
  | dataIsRequiredForFilterApplications
  | maximumStreamSizeExceeded (e : MaximumStreamSizeExceeded)
  | decodeError (e : DecodeError)
deriving DecidableEq, Repr

/-- Full state of the rewritten request parser: the state machine, the role
fixed by BeginRequest, and one defragmenter shared across the stream
phases. -/
structure QParser where
  inner : QState
  role : Option Role
  defrag : Defrag
deriving DecidableEq, Repr

/-- Parser::parse_frame of src/protocol/parser/request.rs.  The name-value
pair decoder for Params is kept abstract as the parameter paramsDec (its
byte-level details are orthogonal to the state machine).  Arms appear in
source order; in particular the Abort arm precedes the Finished error arm,
so an Abort transition is accepted from every state.  The `none` result
models the panic of role.expect in the Stdin end-of-stream arm. -/
def QParser.parseFrame (paramsDec : List Nat → Except DecodeError (List Nat))
    (ps : QParser) (t : QTransition) :
    Option (Except ParseRequestError (Option QPart) × QParser) :=
  match ps.inner, t with
  | QState.beginRequest, QTransition.parse f =>
      some (
        if f.recordType = RecordType.application .beginRequest then
          match BeginRequest.decode f.payload with
          | Except.error e =>
              (Except.error (ParseRequestError.decodeError e), ps)
          | Except.ok br =>
              (Except.ok (some (QPart.beginRequest br)),
               { ps with role := some br.role, inner := QState.params })
        else (Except.error
          (ParseRequestError.unexpectedRecordType f.recordType), ps))
  | QState.params, QTransition.parse f =>
      some (
        if f.recordType = RecordType.application .params then
          match ps.defrag.insertPayload f.payload with
          | Except.error e =>
              (Except.error (ParseRequestError.maximumStreamSizeExceeded e),
               ps)
          | Except.ok d => (Except.ok none, { ps with defrag := d })
        else (Except.error
          (ParseRequestError.unexpectedRecordType f.recordType), ps))
  | QState.params, QTransition.endOfStream rt =>
      some (
        if rt = RecordType.application .params then
          match ps.defrag.handleEndOfStream with
          | (none, d) =>
              (Except.error ParseRequestError.paramsMustBeLargerThanZero,
               { ps with defrag := d, inner := QState.stdin })
          | (some payload, d) =>
              match paramsDec payload with
              | Except.error e =>
                  (Except.error (ParseRequestError.decodeError e),
                   { ps with defrag := d })
              | Except.ok v =>
                  (Except.ok (some (QPart.params v)),
                   { ps with defrag := d, inner := QState.stdin })
        else (Except.error (ParseRequestError.unexpectedRecordType rt), ps))
  | QState.stdin, QTransition.parse f =>
      some (
        if f.recordType = RecordType.application .stdin then
          match ps.defrag.insertPayload f.payload with
          | Except.error e =>
              (Except.error (ParseRequestError.maximumStreamSizeExceeded e),
               ps)
          | Except.ok d => (Except.ok none, { ps with defrag := d })
        else (Except.error
          (ParseRequestError.unexpectedRecordType f.recordType), ps))
  | QState.stdin, QTransition.endOfStream rt =>
      if rt = RecordType.application .stdin then
        match ps.defrag.handleEndOfStream with
        | (none, d) =>
            match ps.role with
            | none => none
            | some Role.filter =>
                some (Except.ok (some (QPart.stdin none)),
                  { ps with defrag := d, inner := QState.data })
            | some _ =>
                some (Except.ok (some (QPart.stdin none)),
                  { ps with defrag := d, inner := QState.finished })
        | (some payload, d) =>
            match Stdin.decode payload with
            | Except.error e =>
                some (Except.error (ParseRequestError.decodeError e),
                  { ps with defrag := d })
            | Except.ok v =>
                match ps.role with
                | none => none
                | some Role.filter =>
                    some (Except.ok (some (QPart.stdin (some v))),
                      { ps with defrag := d, inner := QState.data })
                | some _ =>
                    some (Except.ok (some (QPart.stdin (some v))),
                      { ps with defrag := d, inner := QState.finished })
      else
        some (Except.error (ParseRequestError.unexpectedRecordType rt), ps)
  | QState.data, QTransition.parse f =>
      some (
        if f.recordType = RecordType.application .data then
          match ps.defrag.insertPayload f.payload with
          | Except.error e =>
              (Except.error (ParseRequestError.maximumStreamSizeExceeded e),
               ps)
          | Except.ok d => (Except.ok none, { ps with defrag := d })
        else (Except.error
          (ParseRequestError.unexpectedRecordType f.recordType), ps))
  | QState.data, QTransition.endOfStream rt =>
      some (
        if rt = RecordType.application .data then
          match ps.defrag.handleEndOfStream with
          | (none, d) =>
              (Except.error
                ParseRequestError.dataIsRequiredForFilterApplications,
               { ps with defrag := d, inner := QState.finished })
          | (some payload, d) =>
              match DataRec.decode payload with
              | Except.error e =>
                  (Except.error (ParseRequestError.decodeError e),
                   { ps with defrag := d })
              | Except.ok v =>
                  (Except.ok (some (QPart.data v)),
                   { ps with defrag := d, inner := QState.finished })
        else (Except.error (ParseRequestError.unexpectedRecordType rt), ps))
  | _, QTransition.abort =>
      some (Except.ok (some QPart.abortRequest),
        { ps with inner := QState.aborted })
  | QState.finished, _ =>
      some (Except.error ParseRequestError.invalidParser, ps)
  | _, QTransition.endOfStream rt =>
      some (Except.error (ParseRequestError.unexpectedRecordType rt), ps)
  | _, QTransition.parse f =>
      some (Except.error
        (ParseRequestError.unexpectedRecordType f.recordType), ps)

/-! ### Legacy parser machinery, src/conn/parser.rs -/

/-- Legacy header (src/codec), as far as the parsers use it. -/
structure LHeader where
  id : Nat
  recordType : LegacyRecordType
deriving DecidableEq, Repr

/-- Legacy frame: header plus payload. -/
structure LFrame where
  header : LHeader
  payload : List Nat
deriving DecidableEq, Repr

/-- Errors of the legacy parsers. -/
inductive ParserError
  | invalidState
  | unexpectedRecordType (t : LegacyRecordType)
  | unexpectedEndOfStream
  | unexpectedAbortRequest
  | decodeFrameError (e : DecodeError)
deriving DecidableEq, Repr

/-- The Full parser mode: accumulates whole frames before parsing, with a
128 MiB default cap. -/
structure Full where
  frames : List LFrame
  maxTotalPayload : Nat
  currentTotalPayload : Nat
deriving DecidableEq, Repr

/-- Full::default. -/
def Full.default : Full := ⟨[], 0x8000000, 0⟩

/-- Full::insert_frame: exceeding the cap or mixing frames of different ids
or record types hits a todo macro (a panic, modelled as `none`). -/
def Full.insertFrame (fu : Full) (f : LFrame) : Option Full :=
  let n := f.payload.length
  if fu.maxTotalPayload < fu.currentTotalPayload + n then none
  else
    match fu.frames with
    | [] =>
        some ⟨fu.frames ++ [f], fu.maxTotalPayload,
          fu.currentTotalPayload + n⟩
    | first :: _ =>
        if first.header.id ≠ f.header.id ∨
            first.header.recordType ≠ f.header.recordType then none
        else some ⟨fu.frames ++ [f], fu.maxTotalPayload,
          fu.currentTotalPayload + n⟩

/-- Full::merge_frames: drains the frames and concatenates their payloads
under the first header (the running total is not reset by the source). -/
def Full.mergeFrames (fu : Full) : Option LFrame × Full :=
  match fu.frames with
  | [] => (none, fu)
  | f :: rest =>
      (some ⟨f.header, ((f :: rest).map LFrame.payload).flatten⟩,
       { fu with frames := [] })

/-- Parser modes of the legacy connection parsers. -/
inductive LMode
  | fragmented
  | full (fu : Full)
deriving DecidableEq, Repr

/-- handle_parse_frame for a stream type with decoder dec: Fragmented mode
decodes each frame alone, Full mode accumulates (and can panic in
insert_frame). -/
def handleParseFrame (dec : List Nat → Except DecodeError (List Nat))
    (f : LFrame) (mode : LMode) :
    Option (Except ParserError (Option (List Nat)) × LMode) :=
  match mode with
  | LMode.fragmented =>
      match dec f.payload with
      | Except.error e =>
          some (Except.error (ParserError.decodeFrameError e), mode)
      | Except.ok v => some (Except.ok (some v), mode)
  | LMode.full fu =>
      match fu.insertFrame f with
      | none => none
      | some fu2 => some (Except.ok none, LMode.full fu2)

/-- handle_end_of_stream for a stream type with decoder dec: Fragmented
mode yields nothing, Full mode merges the accumulated frames and decodes
the result; with nothing accumulated it yields nothing. -/
def handleEndOfStreamL (dec : List Nat → Except DecodeError (List Nat))
    (mode : LMode) : Except ParserError (Option (List Nat)) × LMode :=
  match mode with
  | LMode.fragmented => (Except.ok none, mode)
  | LMode.full fu =>
      match fu.mergeFrames with
      | (none, fu2) => (Except.ok none, LMode.full fu2)
      | (some fr, fu2) =>
          match dec fr.payload with
          | Except.error e =>
              (Except.error (ParserError.decodeFrameError e), LMode.full fu2)
          | Except.ok v => (Except.ok (some v), LMode.full fu2)

/-- Transitions of the legacy server request parser. -/
inductive STransition
  | parse (f : LFrame)
  | endOfStream (rt : LegacyRecordType)
  | abort

/-- server::Transition::parse: non-empty payloads are Parse events, an
empty AbortRequest is Abort, other empty frames are EndOfStream; id 0 is
unimplemented (panic, `none`). -/
def STransition.parseFrame (f : LFrame) : Option STransition :=
  if f.header.id = 0 then none
  else some (
    if ¬ f.payload.isEmpty then STransition.parse f
    else if f.header.recordType = LegacyRecordType.standard .abortRequest
    then STransition.abort
    else STransition.endOfStream f.header.recordType)

/-- Parts emitted by the legacy server request parser. -/
inductive SRequestPart
  | beginRequest (br : BeginRequest)
  | abortRequest
  | params (v : List Nat)
  | stdin (v : List Nat)
  | data (v : List Nat)
deriving DecidableEq, Repr

/-- Legacy server connection state. -/
structure SConnState where
  inner : QState
  role : Option Role
  mode : LMode
deriving DecidableEq, Repr

/-- server::RequestParser::parse_frame of src/conn/parser.rs, with the
Params decoder abstract as paramsDec.  Here the Abort arm accepts only the
Params, Stdin and Data states; an Abort in any other state falls through to
the UnexpectedAbortRequest error arm. -/
def SConnState.parseFrame
    (paramsDec : List Nat → Except DecodeError (List Nat))
    (st : SConnState) (t : STransition) :
    Option (Except ParserError (Option SRequestPart) × SConnState) :=
  match st.inner, t with
  | QState.beginRequest, STransition.parse f =>
      some (
        if f.header.recordType = LegacyRecordType.standard .beginRequest then
          match BeginRequest.decode f.payload with
          | Except.error e =>
              (Except.error (ParserError.decodeFrameError e), st)
          | Except.ok br =>
              (Except.ok (some (SRequestPart.beginRequest br)),
               { st with role := some br.role, inner := QState.params })
        else (Except.error
          (ParserError.unexpectedRecordType f.header.recordType), st))
  | QState.params, STransition.parse f =>
      if f.header.recordType = LegacyRecordType.standard .params then
        match handleParseFrame paramsDec f st.mode with
        | none => none
        | some (res, m2) =>
            some (res.map (Option.map SRequestPart.params),
              { st with mode := m2 })
      else
        some (Except.error
          (ParserError.unexpectedRecordType f.header.recordType), st)
  | QState.params, STransition.endOfStream rt =>
      some (
        if rt = LegacyRecordType.standard .params then
          match handleEndOfStreamL paramsDec st.mode with
          | (Except.error e, m2) => (Except.error e, { st with mode := m2 })
          | (Except.ok o, m2) =>
              (Except.ok (o.map SRequestPart.params),
               { st with mode := m2, inner := QState.stdin })
        else (Except.error (ParserError.unexpectedRecordType rt), st))
  | QState.stdin, STransition.parse f =>
      if f.header.recordType = LegacyRecordType.standard .stdin then
        match handleParseFrame Stdin.decode f st.mode with
        | none => none
        | some (res, m2) =>
            some (res.map (Option.map SRequestPart.stdin),
              { st with mode := m2 })
      else
        some (Except.error
          (ParserError.unexpectedRecordType f.header.recordType), st)
  | QState.stdin, STransition.endOfStream rt =>
      some (
        if rt = LegacyRecordType.standard .stdin then
          match handleEndOfStreamL Stdin.decode st.mode with
          | (Except.error e, m2) => (Except.error e, { st with mode := m2 })
          | (Except.ok o, m2) =>
              match st.role with
              | none => (Except.error ParserError.invalidState,
                  { st with mode := m2 })
              | some Role.filter =>
                  (Except.ok (o.map SRequestPart.stdin),
                   { st with mode := m2, inner := QState.data })
              | some _ =>
                  (Except.ok (o.map SRequestPart.stdin),
                   { st with mode := m2, inner := QState.finished })
        else (Except.error (ParserError.unexpectedRecordType rt), st))
  | QState.data, STransition.parse f =>
      if f.header.recordType = LegacyRecordType.standard .data then
        match handleParseFrame DataRec.decode f st.mode with
        | none => none
        | some (res, m2) =>
            some (res.map (Option.map SRequestPart.data),
              { st with mode := m2 })
      else
        some (Except.error
          (ParserError.unexpectedRecordType f.header.recordType), st)
  | QState.data, STransition.endOfStream rt =>
      some (
        if rt = LegacyRecordType.standard .data then
          match handleEndOfStreamL DataRec.decode st.mode with
          | (Except.error e, m2) => (Except.error e, { st with mode := m2 })
          | (Except.ok o, m2) =>
              (Except.ok (o.map SRequestPart.data),
               { st with mode := m2, inner := QState.finished })
        else (Except.error (ParserError.unexpectedRecordType rt), st))
  | QState.params, STransition.abort =>
      some (Except.ok (some SRequestPart.abortRequest),
        { st with inner := QState.aborted })
  | QState.stdin, STransition.abort =>
      some (Except.ok (some SRequestPart.abortRequest),
        { st with inner := QState.aborted })
  | QState.data, STransition.abort =>
      some (Except.ok (some SRequestPart.abortRequest),
        { st with inner := QState.aborted })
  | _, STransition.endOfStream _ =>
      some (Except.error ParserError.unexpectedEndOfStream, st)
  | _, STransition.abort =>
      some (Except.error ParserError.unexpectedAbortRequest, st)
  | _, _ => some (Except.error ParserError.invalidState, st)

/-- Claim C4 (amended): in both server request parsers an empty
AbortRequest in state Params, Stdin or Data transitions to Aborted and
emits an AbortRequest part; in the legacy parser an AbortRequest in
Finished errors with UnexpectedAbortRequest, while the rewritten parser
accepts it too (its catch-all Abort arm precedes the Finished error arm),
transitioning to Aborted and emitting an AbortRequest part. -/
theorem request_parser_abort :
    (∀ (paramsDec : List Nat → Except DecodeError (List Nat))
        (ps : QParser),
      ps.inner = QState.params ∨ ps.inner = QState.stdin ∨
        ps.inner = QState.data ∨ ps.inner = QState.finished →
      QParser.parseFrame paramsDec ps QTransition.abort =
        some (Except.ok (some QPart.abortRequest),
          { ps with inner := QState.aborted })) ∧
    (∀ (paramsDec : List Nat → Except DecodeError (List Nat))
        (st : SConnState),
      st.inner = QState.params ∨ st.inner = QState.stdin ∨
        st.inner = QState.data →
      SConnState.parseFrame paramsDec st STransition.abort =
        some (Except.ok (some SRequestPart.abortRequest),
          { st with inner := QState.aborted })) ∧
    (∀ (paramsDec : List Nat → Except DecodeError (List Nat))
        (st : SConnState),
      st.inner = QState.finished →
      SConnState.parseFrame paramsDec st STransition.abort =
        some (Except.error ParserError.unexpectedAbortRequest, st)) := by
  refine ⟨?_, ?_, ?_⟩
  · intro paramsDec ps h
    rcases h with h | h | h | h <;>
      simp [QParser.parseFrame, h]
  · intro paramsDec st h
    rcases h with h | h | h <;>
      simp [SConnState.parseFrame, h]
  · intro paramsDec st h
    simp [SConnState.parseFrame, h]

/-- Claim C4 (counterexample): in the rewritten parser an empty
AbortRequest received in state Finished is not reported as
UnexpectedAbortRequest (nor as any error): it is accepted, emits an
AbortRequest part, and moves the parser to Aborted. -/
theorem request_parser_abort_cx :
    QParser.parseFrame (fun src => Except.ok src)
        ⟨QState.finished, some Role.responder, Defrag.new⟩
        QTransition.abort =
      some (Except.ok (some QPart.abortRequest),
        ⟨QState.aborted, some Role.responder, Defrag.new⟩) := by
  rfl

/-- Claim C4 (witness). -/
theorem request_parser_abort_witness :
    ((⟨QState.params, none, Defrag.new⟩ : QParser).inner = QState.params ∨
      (⟨QState.params, none, Defrag.new⟩ : QParser).inner = QState.stdin ∨
      (⟨QState.params, none, Defrag.new⟩ : QParser).inner = QState.data ∨
      (⟨QState.params, none, Defrag.new⟩ : QParser).inner =
        QState.finished) ∧
    QParser.parseFrame (fun src => Except.ok src)
        ⟨QState.params, none, Defrag.new⟩ QTransition.abort =
      some (Except.ok (some QPart.abortRequest),
        ⟨QState.aborted, none, Defrag.new⟩) ∧
    SConnState.parseFrame (fun src => Except.ok src)
        ⟨QState.finished, some Role.responder, LMode.full Full.default⟩
        STransition.abort =
      some (Except.error ParserError.unexpectedAbortRequest,
        ⟨QState.finished, some Role.responder, LMode.full Full.default⟩) :=
  ⟨Or.inl rfl,
   request_parser_abort.1 (fun src => Except.ok src)
     ⟨QState.params, none, Defrag.new⟩ (Or.inl rfl),
   request_parser_abort.2.2 (fun src => Except.ok src)
     ⟨QState.finished, some Role.responder, LMode.full Full.default⟩ rfl⟩

/-! ## Legacy client response parser, src/conn/parser.rs (client module),
and its relation to the rewritten parser (C10) -/

/-- Transitions of the legacy client response parser. -/
inductive LTransition
  | parseStdout (f : LFrame)
  | parseStderr (f : LFrame)
  | endOfStdout
  | endOfStderr
  | parseEndRequest (f : LFrame)

/-- client::Transition::parse: classification identical to the rewritten
parser, keyed on record type and payload emptiness; id 0 is unimplemented
(panic, `none`). -/
def LTransition.parseFrame (f : LFrame) :
    Option (Except ParserError LTransition) :=
  if f.header.id = 0 then none
  else
    some (match f.header.recordType, f.payload.isEmpty with
    | LegacyRecordType.standard .stdout, false =>
        Except.ok (LTransition.parseStdout f)
    | LegacyRecordType.standard .stdout, true =>
        Except.ok LTransition.endOfStdout
    | LegacyRecordType.standard .stderr, false =>
        Except.ok (LTransition.parseStderr f)
    | LegacyRecordType.standard .stderr, true =>
        Except.ok LTransition.endOfStderr
    | LegacyRecordType.standard .endRequest, false =>
        Except.ok (LTransition.parseEndRequest f)
    | LegacyRecordType.standard .endRequest, true =>
        Except.error
          (ParserError.decodeFrameError DecodeError.insufficientDataInBuffer)
    | rt, _ => Except.error (ParserError.unexpectedRecordType rt))

/-- Parts emitted by the legacy client response parser (values are not
optional there). -/
inductive LResponsePart
  | stdout (v : List Nat)
  | stderr (v : List Nat)
  | endRequest (er : EndRequest)
deriving DecidableEq, Repr

/-- Legacy client connection state: the same Std/Finished state machine
plus one Full accumulator per stream. -/
structure LConnState where
  inner : RState
  stdoutMode : LMode
  stderrMode : LMode
deriving DecidableEq, Repr

/-- client::ConnectionState::default. -/
def LConnState.default : LConnState :=
  ⟨RState.std Inner.init Inner.init, LMode.full Full.default,
   LMode.full Full.default⟩

/-- client::ResponseParser::parse_frame of src/conn/parser.rs.  Note: there
is no arm for an empty stdout terminator in the Init state (it falls to
InvalidState), and the state is updated even when the stream handler
returns an error. -/
def LConnState.parseFrame (st : LConnState) (t : LTransition) :
    Option (Except ParserError (Option LResponsePart) × LConnState) :=
  match st.inner, t with
  | RState.std Inner.init err, LTransition.parseStdout f =>
      (match handleParseFrame Stdout.decode f st.stdoutMode with
       | none => none
       | some (res, m2) =>
           some (res.map (Option.map LResponsePart.stdout),
             { st with stdoutMode := m2,
                       inner := RState.std Inner.started err }))
  | RState.std Inner.started err, LTransition.parseStdout f =>
      (match handleParseFrame Stdout.decode f st.stdoutMode with
       | none => none
       | some (res, m2) =>
           some (res.map (Option.map LResponsePart.stdout),
             { st with stdoutMode := m2 }))
  | RState.std Inner.started err, LTransition.endOfStdout =>
      (match handleEndOfStreamL Stdout.decode st.stdoutMode with
       | (res, m2) =>
           some (res.map (Option.map LResponsePart.stdout),
             { st with stdoutMode := m2,
                       inner := RState.std Inner.ended err }))
  | RState.std out Inner.init, LTransition.parseStderr f =>
      (match handleParseFrame Stderr.decode f st.stderrMode with
       | none => none
       | some (res, m2) =>
           some (res.map (Option.map LResponsePart.stderr),
             { st with stderrMode := m2,
                       inner := RState.std out Inner.started }))
  | RState.std out Inner.started, LTransition.parseStderr f =>
      (match handleParseFrame Stderr.decode f st.stderrMode with
       | none => none
       | some (res, m2) =>
           some (res.map (Option.map LResponsePart.stderr),
             { st with stderrMode := m2 }))
  | RState.std out Inner.started, LTransition.endOfStderr =>
      (match handleEndOfStreamL Stderr.decode st.stderrMode with
       | (res, m2) =>
           some (res.map (Option.map LResponsePart.stderr),
             { st with stderrMode := m2,
                       inner := RState.std out Inner.ended }))
  | RState.std out Inner.init, LTransition.endOfStderr =>
      (match handleEndOfStreamL Stderr.decode st.stderrMode with
       | (res, m2) =>
           some (res.map (Option.map LResponsePart.stderr),
             { st with stderrMode := m2,
                       inner := RState.std out Inner.ended }))
  | RState.std Inner.ended Inner.init, LTransition.parseEndRequest f =>
      some (match EndRequest.decode f.payload with
        | Except.error e => (Except.error (ParserError.decodeFrameError e), st)
        | Except.ok er =>
            (Except.ok (some (LResponsePart.endRequest er)),
             { st with inner := RState.finished }))
  | RState.std Inner.ended Inner.ended, LTransition.parseEndRequest f =>
      some (match EndRequest.decode f.payload with
        | Except.error e => (Except.error (ParserError.decodeFrameError e), st)
        | Except.ok er =>
            (Except.ok (some (LResponsePart.endRequest er)),
             { st with inner := RState.finished }))
  | _, _ => some (Except.error ParserError.invalidState, st)

/-- Run of the legacy client response parser, recording one emission slot
per consumed transition; `none` propagates a panic. -/
def LConnState.run (st : LConnState) :
    List LTransition →
    Option (Except ParserError (LConnState × List (Option LResponsePart)))
  | [] => some (Except.ok (st, []))
  | t :: ts =>
      match st.parseFrame t with
      | none => none
      | some (Except.error e, _) => some (Except.error e)
      | some (Except.ok part, st2) =>
          match st2.run ts with
          | none => none
          | some (Except.error e) => some (Except.error e)
          | some (Except.ok (stf, log)) =>
              some (Except.ok (stf, part :: log))

/-- Wrap a payload as a legacy stdout frame with the given id. -/
def stdoutFrameL (id : Nat) (p : List Nat) : LFrame :=
  ⟨⟨id, LegacyRecordType.standard .stdout⟩, p⟩

/-- Wrap a payload as a legacy stderr frame with the given id. -/
def stderrFrameL (id : Nat) (p : List Nat) : LFrame :=
  ⟨⟨id, LegacyRecordType.standard .stderr⟩, p⟩

/-- Wrap a payload as a legacy EndRequest frame with the given id. -/
def endRequestFrameL (id : Nat) (p : List Nat) : LFrame :=
  ⟨⟨id, LegacyRecordType.standard .endRequest⟩, p⟩

/-- The same application frame, presented to the legacy parser: the (record
type, payload-is-empty) classification is shared, so each rewritten-parser
transition corresponds to one legacy transition with the request id
attached. -/
def toLTransition (id : Nat) : RTransition → LTransition
  | RTransition.parseStdout p => LTransition.parseStdout (stdoutFrameL id p)
  | RTransition.parseStderr p => LTransition.parseStderr (stderrFrameL id p)
  | RTransition.endOfStdout => LTransition.endOfStdout
  | RTransition.endOfStderr => LTransition.endOfStderr
  | RTransition.parseEndRequest p =>
      LTransition.parseEndRequest (endRequestFrameL id p)

/-- Correspondence of emitted parts: a rewritten-parser part maps to the
legacy part carrying the same value; the rewritten-only empty-stream parts
map to nothing. -/
def convPart : RPart → Option LResponsePart
  | RPart.stdout (some p) => some (LResponsePart.stdout p)
  | RPart.stdout none => none
  | RPart.stderr (some p) => some (LResponsePart.stderr p)
  | RPart.stderr none => none
  | RPart.endRequest er => some (LResponsePart.endRequest er)

/-- Correspondence of emission slots. -/
def convSlot (s : Option RPart) : Option LResponsePart :=
  s.bind convPart

/-- The two events on which the parsers genuinely diverge: an empty stdout
terminator while stdout is unstarted (legacy rejects, rewrite accepts) and
an empty stderr terminator while stderr is unstarted (legacy emits nothing,
rewrite emits an empty Stderr part). -/
def divergentEvent : RState → RTransition → Bool
  | RState.std Inner.init _, RTransition.endOfStdout => true
  | RState.std _ Inner.init, RTransition.endOfStderr => true
  | _, _ => false

/-- No divergent event is hit along the run from the given state. -/
def NoDiv : RState → List RTransition → Bool
  | _, [] => true
  | g, t :: ts =>
      !divergentEvent g t &&
      (match RState.gstep g t with
       | none => true
       | some g2 => NoDiv g2 ts)

/-- Simulation relation between the rewritten parser and the legacy one:
same state machine state, and the legacy Full accumulators hold exactly
the payloads of the rewritten defragmenters as frames of one id, under the
legacy 128 MiB cap. -/
def CRel (id : Nat) (ps : RParser) (st : LConnState) : Prop :=
  st.inner = ps.inner ∧
  st.stdoutMode = LMode.full
    ⟨ps.stdoutDefrag.payloads.map (stdoutFrameL id), 0x8000000,
     ps.stdoutDefrag.currentTotalPayload⟩ ∧
  st.stderrMode = LMode.full
    ⟨ps.stderrDefrag.payloads.map (stderrFrameL id), 0x8000000,
     ps.stderrDefrag.currentTotalPayload⟩ ∧
  ps.stdoutDefrag.maxTotalPayload ≤ 0x8000000 ∧
  ps.stderrDefrag.maxTotalPayload ≤ 0x8000000

theorem Full.insertFrame_ok (fu : Full) (f : LFrame)
    (hcap : fu.currentTotalPayload + f.payload.length ≤ fu.maxTotalPayload)
    (hmatch : ∀ g ∈ fu.frames, g.header = f.header) :
    fu.insertFrame f = some ⟨fu.frames ++ [f], fu.maxTotalPayload,
      fu.currentTotalPayload + f.payload.length⟩ := by
  simp only [Full.insertFrame]
  rw [if_neg (by omega)]
  cases hfr : fu.frames with
  | nil => rfl
  | cons first rest =>
      have hh := hmatch first (by rw [hfr]; simp)
      dsimp only
      rw [if_neg (by simp [hh])]

theorem Full.mergeFrames_eq (fu : Full) (f : LFrame) (rest : List LFrame)
    (h : fu.frames = f :: rest) :
    fu.mergeFrames = (some ⟨f.header, ((f :: rest).map LFrame.payload).flatten⟩,
      { fu with frames := [] }) := by
  unfold Full.mergeFrames
  rw [h]

theorem stdoutFrameL_header (id : Nat) (payloads : List (List Nat)) :
    ∀ g ∈ payloads.map (stdoutFrameL id),
      g.header = LHeader.mk id (LegacyRecordType.standard .stdout) := by
  intro g hg
  simp only [List.mem_map] at hg
  obtain ⟨p, -, rfl⟩ := hg
  rfl

theorem stderrFrameL_header (id : Nat) (payloads : List (List Nat)) :
    ∀ g ∈ payloads.map (stderrFrameL id),
      g.header = LHeader.mk id (LegacyRecordType.standard .stderr) := by
  intro g hg
  simp only [List.mem_map] at hg
  obtain ⟨p, -, rfl⟩ := hg
  rfl

theorem map_payload_stdoutFrameL (id : Nat) (payloads : List (List Nat)) :
    (payloads.map (stdoutFrameL id)).map LFrame.payload = payloads := by
  simp [stdoutFrameL, List.map_map, Function.comp_def]

theorem map_payload_stderrFrameL (id : Nat) (payloads : List (List Nat)) :
    (payloads.map (stderrFrameL id)).map LFrame.payload = payloads := by
  simp [stderrFrameL, List.map_map, Function.comp_def]

/-- The legacy client parser also answers every out-of-order event with
InvalidState, leaving the state unchanged. -/
theorem LConnState.parseFrame_offense (id : Nat) (st : LConnState)
    (t : RTransition) (h : RState.gstep st.inner t = none) :
    st.parseFrame (toLTransition id t) =
      some (Except.error ParserError.invalidState, st) := by
  cases hi : st.inner with
  | finished =>
      cases t <;>
        simp [LConnState.parseFrame, toLTransition, hi, stdoutFrameL,
          stderrFrameL, endRequestFrameL]
  | std out err =>
      rw [hi] at h
      cases out <;> cases err <;> cases t <;>
        simp_all [LConnState.parseFrame, toLTransition, RState.gstep,
          stdoutFrameL, stderrFrameL, endRequestFrameL]

/-- One simulated step of the two client response parsers: away from the
two divergent events, a grammar-offending event makes both parsers answer
InvalidState, and a grammar-legal event is accepted by both with
corresponding parts and related successor states. -/
theorem CStep_sim (id : Nat) (ps : RParser) (st : LConnState)
    (t : RTransition) (outRem errRem : Nat)
    (hrel : CRel id ps st) (hwf : t.wf)
    (hnd : divergentEvent ps.inner t = false)
    (hinv : RInv ps (t.outBytes + outRem) (t.errBytes + errRem)) :
    (RState.gstep ps.inner t = none →
      (ps.parse t).1 = Except.error ParseResponseError.invalidState ∧
      st.parseFrame (toLTransition id t) =
        some (Except.error ParserError.invalidState, st)) ∧
    (∀ g2, RState.gstep ps.inner t = some g2 →
      ∃ part ps2 st2,
        ps.parse t = (Except.ok part, ps2) ∧
        st.parseFrame (toLTransition id t) =
          some (Except.ok (convSlot part), st2) ∧
        CRel id ps2 st2 ∧ RInv ps2 outRem errRem ∧ ps2.inner = g2) := by
  obtain ⟨hr1, hr2, hr3, hr4, hr5⟩ := hrel
  obtain ⟨h1, h2, h3, h4, h5, h6⟩ := hinv
  refine ⟨fun hnone => ⟨RParser.parse_offense ps t hnone,
    LConnState.parseFrame_offense id st t (by rw [hr1]; exact hnone)⟩, ?_⟩
  intro g2 hg
  cases hi : ps.inner with
  | finished => rw [hi] at hg; cases t <;> simp [RState.gstep] at hg
  | std out err =>
      rw [hi] at hg h5 h6 hnd
      have hstinner : st.inner = RState.std out err := by rw [hr1, hi]
      cases t with
      | parseStdout p =>
          simp only [RTransition.outBytes, RTransition.errBytes] at h1 h2
          simp only [RState.gstep] at hg
          have hout : out ≠ Inner.ended := by
            intro hc; rw [hc] at hg; simp at hg
          rw [if_neg hout] at hg
          obtain rfl : RState.std Inner.started err = g2 :=
            Option.some_injective _ hg
          have hins := Defrag.insertPayload_ok ps.stdoutDefrag p (by omega)
          have hfins := Full.insertFrame_ok
            ⟨ps.stdoutDefrag.payloads.map (stdoutFrameL id), 0x8000000,
             ps.stdoutDefrag.currentTotalPayload⟩ (stdoutFrameL id p)
            (by simp only [stdoutFrameL]; omega)
            (stdoutFrameL_header id ps.stdoutDefrag.payloads)
          have hinv2 : RInv
              { ps with
                inner := RState.std Inner.started err,
                stdoutDefrag :=
                  ⟨ps.stdoutDefrag.payloads ++ [p],
                   ps.stdoutDefrag.maxTotalPayload,
                   ps.stdoutDefrag.currentTotalPayload + p.length⟩ }
              outRem errRem := by
            refine ⟨by simp; omega, by simpa using h2, ?_, h4, ?_, ?_⟩
            · intro q hq
              simp only [List.mem_append, List.mem_singleton] at hq
              rcases hq with hq | rfl
              · exact h3 q hq
              · exact hwf
            · intro e _; simp
            · intro o ho
              simp only at ho
              injection ho with ho1 ho2
              exact h6 out (by rw [ho2])
          cases out with
          | ended => exact absurd rfl hout
          | init =>
              simp only [RParser.parse, hi, hins, LConnState.parseFrame,
                hstinner, toLTransition, handleParseFrame, hr2, hfins]
              refine ⟨none, _, _, rfl, rfl, ?_, hinv2, rfl⟩
              refine ⟨by simp, ?_, by simpa using hr3, by simpa using hr4,
                by simpa using hr5⟩
              simp [stdoutFrameL, List.map_append]
          | started =>
              simp only [RParser.parse, hi, hins, LConnState.parseFrame,
                hstinner, toLTransition, handleParseFrame, hr2, hfins]
              refine ⟨none, _, _, rfl, rfl, ?_, hinv2, rfl⟩
              refine ⟨by simpa using hstinner, ?_, by simpa using hr3,
                by simpa using hr4, by simpa using hr5⟩
              simp [stdoutFrameL, List.map_append]
      | endOfStdout =>
          simp only [RTransition.outBytes, RTransition.errBytes] at h1 h2
          simp only [RState.gstep] at hg
          have hout : out ≠ Inner.ended := by
            intro hc; rw [hc] at hg; simp at hg
          rw [if_neg hout] at hg
          obtain rfl : RState.std Inner.ended err = g2 :=
            Option.some_injective _ hg
          cases out with
          | ended => exact absurd rfl hout
          | init => simp [divergentEvent] at hnd
          | started =>
              have hne : ps.stdoutDefrag.payloads ≠ [] := h5 err rfl
              have hflat : ps.stdoutDefrag.payloads.flatten ≠ [] :=
                List.flatten_ne_nil_of_mem hne h3
              have heos : ps.stdoutDefrag.handleEndOfStream =
                  (some ps.stdoutDefrag.payloads.flatten,
                   { ps.stdoutDefrag with payloads := [] }) := by
                unfold Defrag.handleEndOfStream
                rw [if_neg hne]
              have hdec : Stdout.decode ps.stdoutDefrag.payloads.flatten =
                  Except.ok ps.stdoutDefrag.payloads.flatten := by
                unfold Stdout.decode ByteSlice.decode
                  ByteSlice.validateNonEmpty
                rw [if_pos (by simpa using hflat)]
              obtain ⟨q, qs, hq⟩ := List.exists_cons_of_ne_nil hne
              have hmerge := Full.mergeFrames_eq
                ⟨ps.stdoutDefrag.payloads.map (stdoutFrameL id), 0x8000000,
                 ps.stdoutDefrag.currentTotalPayload⟩
                (stdoutFrameL id q) (qs.map (stdoutFrameL id))
                (by rw [hq]; simp)
              have hmflat :
                  ((stdoutFrameL id q :: qs.map (stdoutFrameL id)).map
                    LFrame.payload).flatten =
                  ps.stdoutDefrag.payloads.flatten := by
                have hcons : stdoutFrameL id q :: qs.map (stdoutFrameL id) =
                    (q :: qs).map (stdoutFrameL id) := by simp
                rw [hcons, map_payload_stdoutFrameL, hq]
              rw [hmflat] at hmerge
              have hinv2 : RInv
                  { ps with
                    inner := RState.std Inner.ended err,
                    stdoutDefrag :=
                      { ps.stdoutDefrag with payloads := [] } }
                  outRem errRem := by
                refine ⟨by simp; omega, by simpa using (by omega :
                  ps.stderrDefrag.currentTotalPayload + errRem ≤
                    ps.stderrDefrag.maxTotalPayload), ?_, h4, ?_, ?_⟩
                · intro r hr; simp at hr
                · intro e he; simp only at he
                  injection he with he1 he2; cases he1
                · intro o ho; simp only at ho
                  injection ho with ho1 ho2
                  exact h6 Inner.started (by rw [ho2])
              simp only [RParser.parse, hi, heos, hdec, LConnState.parseFrame,
                hstinner, toLTransition, handleEndOfStreamL, hr2, hmerge]
              refine ⟨some (RPart.stdout
                (some ps.stdoutDefrag.payloads.flatten)), _, _, rfl, rfl,
                ?_, hinv2, rfl⟩
              exact ⟨by simp, by simp, by simpa using hr3,
                by simpa using hr4, by simpa using hr5⟩
      | parseStderr p =>
          simp only [RTransition.outBytes, RTransition.errBytes] at h1 h2
          simp only [RState.gstep] at hg
          have herr : err ≠ Inner.ended := by
            intro hc; rw [hc] at hg; simp at hg
          rw [if_neg herr] at hg
          obtain rfl : RState.std out Inner.started = g2 :=
            Option.some_injective _ hg
          have hins := Defrag.insertPayload_ok ps.stderrDefrag p (by omega)
          have hfins := Full.insertFrame_ok
            ⟨ps.stderrDefrag.payloads.map (stderrFrameL id), 0x8000000,
             ps.stderrDefrag.currentTotalPayload⟩ (stderrFrameL id p)
            (by simp only [stderrFrameL]; omega)
            (stderrFrameL_header id ps.stderrDefrag.payloads)
          have hinv2 : RInv
              { ps with
                inner := RState.std out Inner.started,
                stderrDefrag :=
                  ⟨ps.stderrDefrag.payloads ++ [p],
                   ps.stderrDefrag.maxTotalPayload,
                   ps.stderrDefrag.currentTotalPayload + p.length⟩ }
              outRem errRem := by
            refine ⟨by simpa using h1, by simp; omega, h3, ?_, ?_, ?_⟩
            · intro q hq
              simp only [List.mem_append, List.mem_singleton] at hq
              rcases hq with hq | rfl
              · exact h4 q hq
              · exact hwf
            · intro e he
              simp only at he
              injection he with he1 he2
              exact h5 err (by rw [he1])
            · intro o _; simp
          cases err with
          | ended => exact absurd rfl herr
          | init =>
              simp only [RParser.parse, hi, hins, LConnState.parseFrame,
                hstinner, toLTransition, handleParseFrame, hr3, hfins]
              refine ⟨none, _, _, rfl, rfl, ?_, hinv2, rfl⟩
              refine ⟨by simp, by simpa using hr2, ?_, by simpa using hr4,
                by simpa using hr5⟩
              simp [stderrFrameL, List.map_append]
          | started =>
              simp only [RParser.parse, hi, hins, LConnState.parseFrame,
                hstinner, toLTransition, handleParseFrame, hr3, hfins]
              refine ⟨none, _, _, rfl, rfl, ?_, hinv2, rfl⟩
              refine ⟨by simpa using hstinner, by simpa using hr2, ?_,
                by simpa using hr4, by simpa using hr5⟩
              simp [stderrFrameL, List.map_append]
      | endOfStderr =>
          simp only [RTransition.outBytes, RTransition.errBytes] at h1 h2
          simp only [RState.gstep] at hg
          have herr : err ≠ Inner.ended := by
            intro hc; rw [hc] at hg; simp at hg
          rw [if_neg herr] at hg
          obtain rfl : RState.std out Inner.ended = g2 :=
            Option.some_injective _ hg
          cases err with
          | ended => exact absurd rfl herr
          | init => simp [divergentEvent] at hnd
          | started =>
              have hne : ps.stderrDefrag.payloads ≠ [] := h6 out rfl
              have hflat : ps.stderrDefrag.payloads.flatten ≠ [] :=
                List.flatten_ne_nil_of_mem hne h4
              have heos : ps.stderrDefrag.handleEndOfStream =
                  (some ps.stderrDefrag.payloads.flatten,
                   { ps.stderrDefrag with payloads := [] }) := by
                unfold Defrag.handleEndOfStream
                rw [if_neg hne]
              have hdec : Stderr.decode ps.stderrDefrag.payloads.flatten =
                  Except.ok ps.stderrDefrag.payloads.flatten := by
                unfold Stderr.decode ByteSlice.decode
                  ByteSlice.validateNonEmpty
                rw [if_pos (by simpa using hflat)]
              obtain ⟨q, qs, hq⟩ := List.exists_cons_of_ne_nil hne
              have hmerge := Full.mergeFrames_eq
                ⟨ps.stderrDefrag.payloads.map (stderrFrameL id), 0x8000000,
                 ps.stderrDefrag.currentTotalPayload⟩
                (stderrFrameL id q) (qs.map (stderrFrameL id))
                (by rw [hq]; simp)
              have hmflat :
                  ((stderrFrameL id q :: qs.map (stderrFrameL id)).map
                    LFrame.payload).flatten =
                  ps.stderrDefrag.payloads.flatten := by
                have hcons : stderrFrameL id q :: qs.map (stderrFrameL id) =
                    (q :: qs).map (stderrFrameL id) := by simp
                rw [hcons, map_payload_stderrFrameL, hq]
              rw [hmflat] at hmerge
              have hinv2 : RInv
                  { ps with
                    inner := RState.std out Inner.ended,
                    stderrDefrag :=
                      { ps.stderrDefrag with payloads := [] } }
                  outRem errRem := by
                refine ⟨by simpa using (by omega :
                  ps.stdoutDefrag.currentTotalPayload + outRem ≤
                    ps.stdoutDefrag.maxTotalPayload), by simp; omega,
                  h3, ?_, ?_, ?_⟩
                · intro r hr; simp at hr
                · intro e he; simp only at he
                  injection he with he1 he2
                  exact h5 Inner.started (by rw [he1])
                · intro o ho; simp only at ho
                  injection ho with ho1 ho2; cases ho2
              simp only [RParser.parse, hi, heos, hdec, LConnState.parseFrame,
                hstinner, toLTransition, handleEndOfStreamL, hr3, hmerge]
              refine ⟨some (RPart.stderr
                (some ps.stderrDefrag.payloads.flatten)), _, _, rfl, rfl,
                ?_, hinv2, rfl⟩
              exact ⟨by simp, by simpa using hr2, by simp,
                by simpa using hr4, by simpa using hr5⟩
      | parseEndRequest p =>
          simp only [RTransition.outBytes, RTransition.errBytes] at h1 h2
          simp only [RState.gstep] at hg
          by_cases hcond : out = Inner.ended ∧ err ≠ Inner.started
          · rw [if_pos hcond] at hg
            obtain rfl : RState.finished = g2 := Option.some_injective _ hg
            obtain ⟨rfl, herr⟩ := hcond
            obtain ⟨er, her⟩ : ∃ er, EndRequest.decode p = Except.ok er := by
              cases hd : EndRequest.decode p with
              | error e =>
                  rw [RTransition.wf, hd] at hwf
                  simp [Except.isOk, Except.toBool] at hwf
              | ok er => exact ⟨er, rfl⟩
            have hinv2 : RInv
                { ps with inner := RState.finished } outRem errRem := by
              refine ⟨by simpa using (by omega :
                ps.stdoutDefrag.currentTotalPayload + outRem ≤
                  ps.stdoutDefrag.maxTotalPayload), by simpa using (by omega :
                ps.stderrDefrag.currentTotalPayload + errRem ≤
                  ps.stderrDefrag.maxTotalPayload), h3, h4, ?_, ?_⟩
              · intro e he; simp at he
              · intro o ho; simp at ho
            have hcrel2 : CRel id
                { ps with inner := RState.finished }
                { st with inner := RState.finished } :=
              ⟨by simp, by simpa using hr2, by simpa using hr3,
               by simpa using hr4, by simpa using hr5⟩
            cases err with
            | started => exact absurd rfl herr
            | init =>
                simp only [RParser.parse, hi, her, LConnState.parseFrame,
                  hstinner, toLTransition, endRequestFrameL]
                exact ⟨some (RPart.endRequest er), _, _, rfl, rfl,
                  hcrel2, hinv2, rfl⟩
            | ended =>
                simp only [RParser.parse, hi, her, LConnState.parseFrame,
                  hstinner, toLTransition, endRequestFrameL]
                exact ⟨some (RPart.endRequest er), _, _, rfl, rfl,
                  hcrel2, hinv2, rfl⟩
          · rw [if_neg hcond] at hg; cases hg

/-- Run-level simulation of the legacy client response parser by the
rewritten one: away from the two divergent events, the two runs accept and
reject together, the legacy emission log is the image of the rewritten one
under the part correspondence, and the final automaton states agree. -/
theorem CRun_sim :
    ∀ (ts : List RTransition) (id : Nat) (ps : RParser) (st : LConnState)
      (outRem errRem : Nat),
      CRel id ps st → (∀ t ∈ ts, t.wf) →
      NoDiv ps.inner ts = true →
      RInv ps (outBytes ts + outRem) (errBytes ts + errRem) →
      (∀ gf, RState.grun ps.inner ts = some gf →
        ∃ psf stf log,
          ps.run ts = Except.ok (psf, log) ∧
          st.run (ts.map (toLTransition id)) =
            some (Except.ok (stf, log.map convSlot)) ∧
          CRel id psf stf ∧ psf.inner = gf ∧ RInv psf outRem errRem) ∧
      (RState.grun ps.inner ts = none →
        ps.run ts = Except.error ParseResponseError.invalidState ∧
        st.run (ts.map (toLTransition id)) =
          some (Except.error ParserError.invalidState))
  | [], id, ps, st, outRem, errRem, hrel, hwf, hnd, hinv => by
      constructor
      · intro gf hgf
        simp only [RState.grun] at hgf
        refine ⟨ps, st, [], rfl, rfl, hrel, by injection hgf, ?_⟩
        simpa [outBytes, errBytes] using hinv
      · intro hgf
        simp [RState.grun] at hgf
  | t :: ts, id, ps, st, outRem, errRem, hrel, hwf, hnd, hinv => by
      simp only [NoDiv, Bool.and_eq_true, Bool.not_eq_true'] at hnd
      obtain ⟨hnd1, hnd2⟩ := hnd
      have hinv' : RInv ps (t.outBytes + (outBytes ts + outRem))
          (t.errBytes + (errBytes ts + errRem)) := by
        have ho : outBytes (t :: ts) = t.outBytes + outBytes ts := by
          simp [outBytes]
        have he : errBytes (t :: ts) = t.errBytes + errBytes ts := by
          simp [errBytes]
        rw [ho, he] at hinv
        obtain ⟨i1, i2, i3, i4, i5, i6⟩ := hinv
        exact ⟨by omega, by omega, i3, i4, i5, i6⟩
      obtain ⟨hstepN, hstepS⟩ := CStep_sim id ps st t
        (outBytes ts + outRem) (errBytes ts + errRem) hrel
        (hwf t (by simp)) hnd1 hinv'
      cases hstep : RState.gstep ps.inner t with
      | none =>
          obtain ⟨he1, he2⟩ := hstepN hstep
          constructor
          · intro gf hgf
            simp only [RState.grun, hstep] at hgf
            cases hgf
          · intro _
            constructor
            · cases hp : ps.parse t with
              | mk res ps2 =>
                  rw [hp] at he1
                  simp only at he1
                  subst he1
                  simp only [RParser.run, hp]
            · simp only [List.map_cons, LConnState.run, he2]
      | some g2 =>
          rw [hstep] at hnd2
          obtain ⟨part, ps2, st2, hp1, hp2, hrel2, hinv2, hg2⟩ :=
            hstepS g2 hstep
          obtain ⟨ih1, ih2⟩ := CRun_sim ts id ps2 st2 outRem errRem hrel2
            (fun x hx => hwf x (by simp [hx]))
            (by rw [hg2]; simpa using hnd2) hinv2
          constructor
          · intro gf hgf
            simp only [RState.grun, hstep] at hgf
            obtain ⟨psf, stf, log, hr1, hr2, hrelf, hinnf, hinvf⟩ :=
              ih1 gf (by rw [hg2]; exact hgf)
            refine ⟨psf, stf, part :: log, ?_, ?_, hrelf, hinnf, hinvf⟩
            · simp only [RParser.run, hp1, hr1]
            · simp only [List.map_cons, LConnState.run, hp2, hr2,
                List.map_cons]
          · intro hgf
            simp only [RState.grun, hstep] at hgf
            obtain ⟨hr1, hr2⟩ := ih2 (by rw [hg2]; exact hgf)
            constructor
            · simp only [RParser.run, hp1, hr1]
            · simp only [List.map_cons, LConnState.run, hp2, hr2]

/-- Claim C10 (amended): away from the two divergent events — an empty
stdout terminator while stdout is unstarted (rejected by the legacy parser,
accepted by the rewrite) and an empty stderr terminator while stderr is
unstarted (ignored by the legacy parser, emitted as an empty Stderr part by
the rewrite) — the legacy and rewritten client response parsers, started
from their initial states and fed the same application frame sequence, make
the same state transitions, accept and reject the same sequences, and emit
corresponding Stdout, Stderr and EndRequest outputs at the same positions
(the rewritten optional part values mapping to the legacy mandatory ones),
given well-formed events, a rewritten cap of at most the legacy 128 MiB
cap, and stream totals within the cap. -/
theorem client_response_parser_equiv
    (id max : Nat) (ts : List RTransition)
    (hmax : max ≤ 0x8000000)
    (hwf : ∀ t ∈ ts, t.wf)
    (hnd : NoDiv (RState.std Inner.init Inner.init) ts = true)
    (hout : outBytes ts ≤ max) (herr : errBytes ts ≤ max) :
    (∀ gf, RState.grun (RState.std Inner.init Inner.init) ts = some gf →
      ∃ psf stf log,
        (RParser.new max).run ts = Except.ok (psf, log) ∧
        LConnState.default.run (ts.map (toLTransition id)) =
          some (Except.ok (stf, log.map convSlot)) ∧
        stf.inner = psf.inner ∧ psf.inner = gf) ∧
    (RState.grun (RState.std Inner.init Inner.init) ts = none →
      (RParser.new max).run ts =
        Except.error ParseResponseError.invalidState ∧
      LConnState.default.run (ts.map (toLTransition id)) =
        some (Except.error ParserError.invalidState)) := by
  have hinner : (RParser.new max).inner =
      RState.std Inner.init Inner.init := rfl
  have hrel : CRel id (RParser.new max) LConnState.default := by
    refine ⟨rfl, ?_, ?_, ?_, ?_⟩ <;>
      simp [RParser.new, LConnState.default, Full.default, Defrag.new,
        Defrag.default, Defrag.withMaxPayloadSize, hmax]
  have hinv : RInv (RParser.new max) (outBytes ts + 0) (errBytes ts + 0) :=
    RInv.new max _ _ (by omega) (by omega)
  obtain ⟨h1, h2⟩ := CRun_sim ts id (RParser.new max) LConnState.default 0 0
    hrel hwf (by rw [hinner]; exact hnd) hinv
  refine ⟨?_, ?_⟩
  · intro gf hgf
    obtain ⟨psf, stf, log, hr1, hr2, hrelf, hinnf, _⟩ :=
      h1 gf (by rw [hinner]; exact hgf)
    exact ⟨psf, stf, log, hr1, hr2, hrelf.1, hinnf⟩
  · intro hgf
    exact h2 (by rw [hinner]; exact hgf)

theorem client_response_parser_equiv_cx :
    divergentEvent (RState.std Inner.init Inner.init)
      RTransition.endOfStdout = true ∧
    ((RParser.new 0x8000000).run [RTransition.endOfStdout]).isOk = true ∧
    LConnState.default.run
      ([RTransition.endOfStdout].map (toLTransition 1)) =
      some (Except.error ParserError.invalidState) := by
  exact ⟨rfl, rfl, rfl⟩

theorem client_response_parser_equiv_witness :
    ∃ psf stf log,
      (RParser.new 0x8000000).run
        [RTransition.parseStdout [65], RTransition.endOfStdout,
         RTransition.parseEndRequest [0, 0, 0, 0, 0, 0, 0, 0]] =
        Except.ok (psf, log) ∧
      LConnState.default.run
        ([RTransition.parseStdout [65], RTransition.endOfStdout,
          RTransition.parseEndRequest [0, 0, 0, 0, 0, 0, 0, 0]].map
          (toLTransition 1)) =
        some (Except.ok (stf, log.map convSlot)) ∧
      stf.inner = psf.inner ∧ psf.inner = RState.finished := by
  exact (client_response_parser_equiv 1 0x8000000
    [RTransition.parseStdout [65], RTransition.endOfStdout,
     RTransition.parseEndRequest [0, 0, 0, 0, 0, 0, 0, 0]]
    (by decide) (by decide) (by decide) (by decide) (by decide)).1
    RState.finished (by decide)

/-! ## Stream chunking (C6) -/

/-- ByteSlice::encode_chunk of src/protocol/record/common/byte_slice.rs:
once the slice is exhausted the answer is `none`; otherwise the leading
min(buf.remaining_mut(), len) bytes are written into the buffer and the
rest is kept.  The written chunk and the kept remainder are returned. -/
def ByteSlice.encodeChunk (cap : Nat) (bytes : List Nat) :
    Option (List Nat × List Nat) :=
  if bytes.isEmpty then none
  else
    some (bytes.take (min cap bytes.length),
          bytes.drop (min cap bytes.length))

/-- StreamChunker of src/protocol/record/common/stream_chunker.rs, wrapping
a byte-slice stream. -/
structure StreamChunker where
  inner : Option (List Nat)
deriving DecidableEq, Repr

/-- StreamChunker::encode: encode one chunk from the wrapped stream; when
the stream answers `none` (exhausted) the wrapped value is dropped. -/
def StreamChunker.encode (sc : StreamChunker) (cap : Nat) :
    Option (List Nat) × StreamChunker :=
  match sc.inner with
  | none => (none, sc)
  | some bytes =>
      match ByteSlice.encodeChunk cap bytes with
      | none => (none, ⟨none⟩)
      | some (chunk, rest) => (some chunk, ⟨some rest⟩)

/-- The chunk-buffer capacity used by the multiplex client when encoding
streams: buf.limit(u16::MAX) in src/multiplex/client/pending.rs. -/
def chunkCap : Nat := 65535

/-- The chunk payloads written by repeatedly encoding through fresh
65535-byte buffers until the stream is exhausted — the send_stream loop of
Pending::poll_inner. -/
def chunksOf : List Nat → List (List Nat)
  | [] => []
  | b :: bs =>
      (b :: bs).take (min chunkCap (b :: bs).length) ::
        chunksOf ((b :: bs).drop (min chunkCap (b :: bs).length))
termination_by l => l.length
decreasing_by
  simp only [List.length_drop, List.length_cons, chunkCap]
  omega

/-- Drain a chunker through repeated encode calls. -/
def StreamChunker.drain (sc : StreamChunker) : List (List Nat) :=
  match sc.inner with
  | none => []
  | some bytes => chunksOf bytes

/-- The drain is exactly the iteration of StreamChunker::encode at the
65535-byte buffer capacity. -/
theorem StreamChunker.drain_eq (sc : StreamChunker) :
    sc.drain =
      (match sc.encode chunkCap with
       | (none, _) => []
       | (some c, sc2) => c :: sc2.drain) := by
  match sc with
  | ⟨none⟩ => rfl
  | ⟨some []⟩ =>
      simp [StreamChunker.drain, StreamChunker.encode,
        ByteSlice.encodeChunk, chunksOf]
  | ⟨some (b :: bs)⟩ =>
      rw [show StreamChunker.drain ⟨some (b :: bs)⟩ =
        chunksOf (b :: bs) from rfl, chunksOf]
      simp only [StreamChunker.encode, ByteSlice.encodeChunk,
        List.isEmpty_cons, Bool.false_eq_true, if_false]
      rfl

theorem chunksOf_flatten : ∀ l : List Nat, (chunksOf l).flatten = l
  | [] => by rw [chunksOf]; rfl
  | b :: bs => by
      rw [chunksOf, List.flatten_cons,
        chunksOf_flatten ((b :: bs).drop (min chunkCap (b :: bs).length)),
        List.take_append_drop]
termination_by l => l.length
decreasing_by
  simp only [List.length_drop, List.length_cons, chunkCap]
  omega

theorem chunksOf_length : ∀ l : List Nat,
    (chunksOf l).length = (l.length + 65534) / 65535
  | [] => by rw [chunksOf]; rfl
  | b :: bs => by
      rw [chunksOf, List.length_cons,
        chunksOf_length ((b :: bs).drop (min chunkCap (b :: bs).length))]
      simp only [List.length_drop, List.length_cons, chunkCap]
      omega
termination_by l => l.length
decreasing_by
  simp only [List.length_drop, List.length_cons, chunkCap]
  omega

/-- Claim C6: for a byte-slice-backed stream of length n encoded through
the stream chunker into 65535-byte buffers, concatenating all emitted
non-terminator chunk payloads restores the original byte sequence, and the
number of non-terminator chunks is ceil(n / 65535). -/
theorem stream_chunker_exact (bytes : List Nat) :
    (StreamChunker.drain ⟨some bytes⟩).flatten = bytes ∧
    (StreamChunker.drain ⟨some bytes⟩).length =
      (bytes.length + 65534) / 65535 :=
  ⟨chunksOf_flatten bytes, chunksOf_length bytes⟩

/-! ## Multiplex client pending-request cleanup (C8) -/

/-- EncodeRecordError of src/protocol/record/mod.rs. -/
inductive EncodeRecordError
  | insufficientSizeInBuffer
  | maxFrameSizeExceeded
deriving DecidableEq, Repr

/-- ProtocolStatusError of src/protocol/record/end_request.rs. -/
inductive ProtocolStatusError
  | cantMpxConn
  | overloaded
  | unknownRole
deriving DecidableEq, Repr

/-- PendingError of src/multiplex/client/pending.rs. -/
inductive PendingError
  | expired
  | senderError
  | encodeError (e : EncodeRecordError)
  | parseError (e : ParseResponseError)
  | recvChannelClosedEarly
  | protocolStatusError (e : ProtocolStatusError)
deriving DecidableEq, Repr

/-- PendingError::is_abort_required: everything except the two variants
that indicate the server already sent EndRequest. -/
def PendingError.isAbortRequired : PendingError → Bool
  | .protocolStatusError _ => false
  | .parseError (ParseResponseError.decodeEndRequestError _) => false
  | _ => true

/-- The abort flag computed in Pending::poll: the inner future resolved
with an error that requires an abort, and the BeginRequest record had
already been handed to the sender (its keep_conn slot was taken). -/
def pendingAbortFlag (inner : Except PendingError Unit)
    (keepConn : Option Bool) : Bool :=
  match inner with
  | Except.ok _ => false
  | Except.error e => e.isAbortRequired && keepConn.isNone

/-- Commands of the multiplex client dispatcher channel that a cleanup
task can enqueue. -/
inductive Command
  | register
  | abort (id : Nat)
deriving DecidableEq, Repr

/-- Cleanup::poll: an Abort command for the request id is enqueued exactly
when the spawned task carries the abort flag. -/
def Cleanup.commands (id : Nat) (abortFlag : Bool) : List Command :=
  if abortFlag then [Command.abort id] else []

/-- The commands enqueued by the cleanup task that Pending::poll spawns
when the inner future resolves. -/
def pendingCleanupCommands (id : Nat) (inner : Except PendingError Unit)
    (keepConn : Option Bool) : List Command :=
  Cleanup.commands id (pendingAbortFlag inner keepConn)

/-- Claim C8: when a pending multiplex request resolves with an error
after its BeginRequest was handed to the sender (keep_conn slot taken) and
the error does not indicate an observed EndRequest, the spawned cleanup
task enqueues exactly one Abort command for the request id; for a
protocol-status error or an EndRequest decode error the abort flag is off
and nothing is enqueued; nothing is enqueued either when BeginRequest was
not yet handed over or when the request resolved without error. -/
theorem pending_cleanup_abort (id : Nat) (e : PendingError) :
    (e.isAbortRequired = true →
      pendingAbortFlag (Except.error e) none = true ∧
      pendingCleanupCommands id (Except.error e) none =
        [Command.abort id]) ∧
    (∀ s, e = PendingError.protocolStatusError s →
      pendingAbortFlag (Except.error e) none = false ∧
      pendingCleanupCommands id (Except.error e) none = []) ∧
    (∀ d, e = PendingError.parseError
        (ParseResponseError.decodeEndRequestError d) →
      pendingAbortFlag (Except.error e) none = false ∧
      pendingCleanupCommands id (Except.error e) none = []) ∧
    (∀ b, pendingCleanupCommands id (Except.error e) (some b) = []) ∧
    (∀ k, pendingCleanupCommands id (Except.ok ()) k = []) := by
  refine ⟨?_, ?_, ?_, ?_, ?_⟩
  · intro h
    exact ⟨by simp [pendingAbortFlag, h],
      by simp [pendingCleanupCommands, Cleanup.commands,
        pendingAbortFlag, h]⟩
  · rintro s rfl
    exact ⟨rfl, rfl⟩
  · rintro d rfl
    exact ⟨rfl, rfl⟩
  · intro b
    simp [pendingCleanupCommands, Cleanup.commands, pendingAbortFlag]
  · intro k
    simp [pendingCleanupCommands, Cleanup.commands, pendingAbortFlag]

theorem pending_cleanup_abort_witness :
    pendingAbortFlag (Except.error PendingError.expired) none = true ∧
    pendingCleanupCommands 7 (Except.error PendingError.expired) none =
      [Command.abort 7] :=
  (pending_cleanup_abort 7 PendingError.expired).1 rfl

/-! ## Multiplex client dispatcher slot table (C5) -/

/-- Modelled from the spec: the dispatcher slot table is a Slab from the
external slab crate (not part of this repository).  A slab is a set of
occupied keys plus a free list; the keys ever handed out, occupied or
free, tile an initial segment of the naturals. -/
structure Slab where
  occupied : Finset Nat
  free : List Nat
deriving DecidableEq

/-- Slab::new. -/
def Slab.new : Slab := ⟨∅, []⟩

/-- Slab::len, the number of occupied slots. -/
def Slab.len (s : Slab) : Nat := s.occupied.card

/-- The total number of slots ever allocated (occupied plus free). -/
def Slab.entriesLen (s : Slab) : Nat := s.occupied.card + s.free.length

/-- Modelled from the spec: Slab::vacant_entry().insert(v) pops the head
of the free list, or extends the entry array by one slot when no slot is
free; the chosen key is returned with the updated slab. -/
def Slab.insertVacant (s : Slab) : Nat × Slab :=
  match s.free with
  | [] => (s.occupied.card, ⟨insert s.occupied.card s.occupied, []⟩)
  | k :: rest => (k, ⟨insert k s.occupied, rest⟩)

/-- Slab::remove guarded by Slab::contains, as every call site in
ClientReceiver::poll does: the key returns to the free list. -/
def Slab.removeKey (s : Slab) (k : Nat) : Slab :=
  if k ∈ s.occupied then ⟨s.occupied.erase k, k :: s.free⟩ else s

/-- Structural invariant of the slab model: the free list holds distinct
vacant keys, and occupied and free keys together tile an initial segment
of the naturals. -/
def SInv (s : Slab) : Prop :=
  s.free.Nodup ∧ (∀ k ∈ s.free, k ∉ s.occupied) ∧
  s.occupied ∪ s.free.toFinset = Finset.range s.entriesLen

/-- Events handled by one iteration of ClientReceiver::poll that touch the
slot table: a Register command (with the outcome of answering the
requester over its one-shot channel), an Abort command, an inbound
application frame (with record type reduced to being EndRequest or not,
and the outcome of try_send to the pending request), and the sender
shutdown leaving the Running state. -/
inductive DEvent
  | register (sendOk : Bool)
  | abort (id : Nat)
  | recvFrame (id : Nat) (isEndRequest : Bool) (sendOk : Bool)
  | stopSending
deriving DecidableEq, Repr

/-- Dispatcher state: the pending slot table and whether the receiver is
still in the Running state. -/
structure DState where
  pending : Slab
  running : Bool
deriving DecidableEq

/-- The dispatcher starts Running with an empty slot table. -/
def DState.init : DState := ⟨Slab.new, true⟩

/-- One slot-table-relevant step of ClientReceiver::poll.  Register only
succeeds in the Running state with fewer than u16::MAX - 1 = 65534
occupied slots (the length is compared as a u16), and inserts at key k
handing out id k + 1 only when the requester still listens; Abort removes
the key id - 1 when present; an inbound frame for a registered id removes
its slot when it is an EndRequest (before delivery) or when delivery
fails; management frames (id 0) and unknown ids are ignored. -/
def DState.step (st : DState) : DEvent → DState
  | DEvent.register sendOk =>
      if st.running = true ∧ st.pending.len % 2 ^ 16 < 65534 then
        if sendOk then { st with pending := st.pending.insertVacant.2 }
        else st
      else st
  | DEvent.abort id => { st with pending := st.pending.removeKey (id - 1) }
  | DEvent.recvFrame id isEndReq sendOk =>
      if id = 0 then st
      else if (id - 1) ∈ st.pending.occupied then
        (if isEndReq then
          { st with pending := st.pending.removeKey (id - 1) }
         else if sendOk then st
         else { st with pending := st.pending.removeKey (id - 1) })
      else st
  | DEvent.stopSending => { st with running := false }

/-- Run the dispatcher from a state over an event sequence. -/
def DState.run (st : DState) (es : List DEvent) : DState :=
  es.foldl DState.step st

/-- The live request ids of the slot table: each occupied key k carries
the id k + 1. -/
def liveIds (st : DState) : Finset Nat :=
  st.pending.occupied.image (fun k => k + 1)

/-- Reachability invariant: the slab is structurally sound and never
allocated more than 65534 slots. -/
def DInv (st : DState) : Prop :=
  SInv st.pending ∧ st.pending.entriesLen ≤ 65534

theorem SInv.slabNew : SInv Slab.new := by
  refine ⟨List.nodup_nil, ?_, ?_⟩
  · intro k hk; cases hk
  · simp [Slab.new, Slab.entriesLen]

theorem Slab.insertVacant_SInv (s : Slab) (h : SInv s) :
    SInv s.insertVacant.2 ∧
      s.insertVacant.2.entriesLen ≤ max s.entriesLen (s.len + 1) := by
  obtain ⟨occ, free⟩ := s
  obtain ⟨h1, h2, h3⟩ := h
  cases free with
  | nil =>
      simp only [Slab.entriesLen, List.length_nil, Nat.add_zero,
        List.toFinset_nil, Finset.union_empty] at h3
      have hiff := Finset.ext_iff.mp h3 occ.card
      have hnotmem : occ.card ∉ occ := by
        rw [hiff]; simp
      refine ⟨⟨List.nodup_nil, ?_, ?_⟩, ?_⟩
      · intro k hk
        cases hk
      · show insert occ.card occ ∪ ([] : List Nat).toFinset =
          Finset.range (Slab.entriesLen ⟨insert occ.card occ, []⟩)
        simp only [List.toFinset_nil, Finset.union_empty, Slab.entriesLen,
          List.length_nil, Nat.add_zero,
          Finset.card_insert_of_not_mem hnotmem]
        rw [Finset.range_succ, ← h3]
      · show Slab.entriesLen ⟨insert occ.card occ, []⟩ ≤
          max (Slab.entriesLen ⟨occ, []⟩) (Slab.len ⟨occ, []⟩ + 1)
        simp only [Slab.entriesLen, Slab.len, List.length_nil,
          Nat.add_zero, Finset.card_insert_of_not_mem hnotmem]
        omega
  | cons k rest =>
      have hkocc : k ∉ occ := h2 k (by simp)
      have hkrest : k ∉ rest := (List.nodup_cons.mp h1).1
      refine ⟨⟨(List.nodup_cons.mp h1).2, ?_, ?_⟩, ?_⟩
      · intro j hj
        dsimp only [Slab.insertVacant] at hj
        show j ∉ insert k occ
        simp only [Finset.mem_insert, not_or]
        exact ⟨fun hjk => hkrest (hjk ▸ hj),
          h2 j (List.mem_cons_of_mem k hj)⟩
      · show insert k occ ∪ rest.toFinset =
          Finset.range (Slab.entriesLen ⟨insert k occ, rest⟩)
        rw [Finset.insert_union, ← Finset.union_insert,
          ← List.toFinset_cons, h3]
        simp only [Slab.entriesLen, List.length_cons,
          Finset.card_insert_of_not_mem hkocc]
        have heq : occ.card + 1 + rest.length =
            occ.card + (rest.length + 1) := by omega
        rw [heq]
      · show Slab.entriesLen ⟨insert k occ, rest⟩ ≤
          max (Slab.entriesLen ⟨occ, k :: rest⟩) (Slab.len ⟨occ, k :: rest⟩ + 1)
        simp only [Slab.entriesLen, Slab.len, List.length_cons,
          Finset.card_insert_of_not_mem hkocc]
        omega

theorem Slab.removeKey_SInv (s : Slab) (k : Nat) (h : SInv s) :
    SInv (s.removeKey k) ∧ (s.removeKey k).entriesLen = s.entriesLen := by
  obtain ⟨h1, h2, h3⟩ := h
  by_cases hk : k ∈ s.occupied
  · have hkfree : k ∉ s.free := fun hmem => h2 k hmem hk
    have hcard : 1 ≤ s.occupied.card := Finset.card_pos.mpr ⟨k, hk⟩
    refine ⟨⟨?_, ?_, ?_⟩, ?_⟩
    · simp only [Slab.removeKey, if_pos hk]
      exact List.nodup_cons.mpr ⟨hkfree, h1⟩
    · intro j hj
      simp only [Slab.removeKey, if_pos hk] at hj ⊢
      rcases List.mem_cons.mp hj with rfl | hj2
      · exact Finset.not_mem_erase j s.occupied
      · intro hje
        exact h2 j hj2 (Finset.mem_of_mem_erase hje)
    · simp only [Slab.removeKey, if_pos hk, List.toFinset_cons]
      rw [Finset.union_insert, ← Finset.insert_union,
        Finset.insert_erase hk, h3]
      simp only [Slab.entriesLen, List.length_cons,
        Finset.card_erase_of_mem hk]
      have heq : s.occupied.card - 1 + (s.free.length + 1) =
          s.occupied.card + s.free.length := by omega
      rw [heq]
    · simp only [Slab.removeKey, if_pos hk, Slab.entriesLen,
        Finset.card_erase_of_mem hk, List.length_cons]
      omega
  · rw [Slab.removeKey, if_neg hk]
    exact ⟨⟨h1, h2, h3⟩, rfl⟩

theorem DState.step_inv (st : DState) (e : DEvent) (h : DInv st) :
    DInv (st.step e) := by
  obtain ⟨hs, hb⟩ := h
  cases e with
  | register sendOk =>
      simp only [DState.step]
      by_cases hc : st.running = true ∧ st.pending.len % 2 ^ 16 < 65534
      · rw [if_pos hc]
        cases sendOk with
        | false => exact ⟨hs, hb⟩
        | true =>
            have hle : st.pending.len ≤ 65534 := by
              have hb2 := hb
              simp only [Slab.entriesLen] at hb2
              simp only [Slab.len]
              omega
            have hlen : st.pending.len < 65534 := by
              have hc2 := hc.2
              have hmod : st.pending.len % 2 ^ 16 = st.pending.len :=
                Nat.mod_eq_of_lt (by omega)
              omega
            obtain ⟨hs2, he2⟩ := Slab.insertVacant_SInv st.pending hs
            refine ⟨hs2, ?_⟩
            show st.pending.insertVacant.2.entriesLen ≤ 65534
            calc st.pending.insertVacant.2.entriesLen ≤
                max st.pending.entriesLen (st.pending.len + 1) := he2
              _ ≤ 65534 := by
                  simp only [max_le_iff]
                  omega
      · rw [if_neg hc]
        exact ⟨hs, hb⟩
  | abort id =>
      obtain ⟨hs2, he2⟩ := Slab.removeKey_SInv st.pending (id - 1) hs
      refine ⟨hs2, ?_⟩
      show (st.pending.removeKey (id - 1)).entriesLen ≤ 65534
      rw [he2]
      exact hb
  | recvFrame id isEndReq sendOk =>
      simp only [DState.step]
      obtain ⟨hs2, he2⟩ := Slab.removeKey_SInv st.pending (id - 1) hs
      by_cases h0 : id = 0
      · rw [if_pos h0]; exact ⟨hs, hb⟩
      · rw [if_neg h0]
        by_cases hmem : (id - 1) ∈ st.pending.occupied
        · rw [if_pos hmem]
          cases isEndReq with
          | true =>
              refine ⟨hs2, ?_⟩
              show (st.pending.removeKey (id - 1)).entriesLen ≤ 65534
              rw [he2]
              exact hb
          | false =>
              cases sendOk with
              | true => exact ⟨hs, hb⟩
              | false =>
                  refine ⟨hs2, ?_⟩
                  show (st.pending.removeKey (id - 1)).entriesLen ≤ 65534
                  rw [he2]
                  exact hb
        · rw [if_neg hmem]; exact ⟨hs, hb⟩
  | stopSending => exact ⟨hs, hb⟩

theorem DState.run_inv :
    ∀ (es : List DEvent) (st : DState), DInv st → DInv (st.run es)
  | [], st, h => h
  | e :: es, st, h =>
      DState.run_inv es (st.step e) (DState.step_inv st e h)

theorem DInv.init : DInv DState.init :=
  ⟨SInv.slabNew, by simp [DState.init, Slab.new, Slab.entriesLen]⟩

theorem liveIds_subset (st : DState) (h : DInv st) :
    liveIds st ⊆ Finset.Icc 1 65534 := by
  intro x hx
  simp only [liveIds, Finset.mem_image] at hx
  obtain ⟨k, hk, rfl⟩ := hx
  have hsub : st.pending.occupied ⊆
      Finset.range st.pending.entriesLen := by
    rw [← h.1.2.2]
    exact Finset.subset_union_left
  have hklt : k < st.pending.entriesLen := by
    simpa using hsub hk
  have := h.2
  simp only [Finset.mem_Icc]
  omega

/-- Claim C5: at every instant of one multiplex client connection
reachable from the initial dispatcher state, the set of live request ids
in the slot table is a subset of 1..=65534 with at most 65534 elements,
and after the step that delivers an EndRequest frame for an id to its
pending request, that id is no longer in the slot table. -/
theorem dispatcher_slot_table_invariant (es : List DEvent) :
    liveIds (DState.init.run es) ⊆ Finset.Icc 1 65534 ∧
    (liveIds (DState.init.run es)).card ≤ 65534 ∧
    ∀ id ok, id ∉ liveIds ((DState.init.run es).step
      (DEvent.recvFrame id true ok)) := by
  have hinv : DInv (DState.init.run es) :=
    DState.run_inv es DState.init DInv.init
  refine ⟨liveIds_subset _ hinv, ?_, ?_⟩
  · calc (liveIds (DState.init.run es)).card ≤
        (DState.init.run es).pending.occupied.card :=
          Finset.card_image_le
      _ ≤ 65534 := by
          have := hinv.2
          simp only [Slab.entriesLen] at this
          omega
  · intro id ok
    set st := DState.init.run es with hst
    simp only [DState.step]
    by_cases h0 : id = 0
    · rw [if_pos h0]
      intro hmem
      simp only [liveIds, Finset.mem_image] at hmem
      obtain ⟨k, _, hk⟩ := hmem
      omega
    · rw [if_neg h0]
      by_cases hmem : (id - 1) ∈ st.pending.occupied
      · rw [if_pos hmem]
        simp only [if_true]
        intro hx
        simp only [liveIds, Slab.removeKey, if_pos hmem,
          Finset.mem_image] at hx
        obtain ⟨k, hk, hkid⟩ := hx
        have hkeq : k = id - 1 := by omega
        rw [hkeq] at hk
        exact Finset.not_mem_erase _ _ hk
      · rw [if_neg hmem]
        intro hx
        simp only [liveIds, Finset.mem_image] at hx
        obtain ⟨k, hk, hkid⟩ := hx
        have hkeq : k = id - 1 := by omega
        rw [hkeq] at hk
        exact hmem hk

end FastCGI
